import Mathlib

/-!
Verification of the html-vegalite core: a shallow embedding of the
HTML parser / style-stack scanner, the composite list-family state,
the spacing analyzer and the layout engine's placement decisions,
together with theorems settling the specification claims.

JavaScript strings are modelled as `List Char`, JavaScript numbers as `ℚ`
(every numeric computation in the embedded code is exact decimal
arithmetic), and JavaScript `Map`s as association lists.
-/

namespace HtmlVega

/-- JavaScript strings are modelled as lists of characters. -/
abbrev Str := List Char

/-- Shorthand turning a Lean string literal into the `List Char` model. -/
def str (s : String) : Str := s.data

/-- Whitespace test modelling the JavaScript `\s` character class
(ASCII subset: space, tab, newline, carriage return, vertical tab, form feed). -/
def isWs (c : Char) : Bool :=
  c = ' ' || c = '\t' || c = '\n' || c = '\r' || c = (Char.ofNat 11) || c = (Char.ofNat 12)

/-- Model of JavaScript `String.prototype.trim`:
drop leading and trailing whitespace. -/
def trimStr (s : Str) : Str :=
  ((s.dropWhile isWs).reverse.dropWhile isWs).reverse

/-- Model of JavaScript `String.prototype.toLowerCase` (ASCII). -/
def lowerStr (s : Str) : Str := s.map Char.toLower

/-- Decimal representation of a counter value (JavaScript number-to-string
coercion for the naturals used by the list counters). -/
def natToStr (n : Nat) : Str := (Nat.repr n).data

/-- Association-list lookup, modelling `Map.prototype.get`. -/
def alGet {α : Type} (m : List (Str × α)) (k : Str) : Option α :=
  (m.find? (fun p => p.1 = k)).map (·.2)

/-- Association-list update, modelling `Map.prototype.set`
(replace in place if the key exists, append otherwise). -/
def alSet {α : Type} (m : List (Str × α)) (k : Str) (v : α) : List (Str × α) :=
  if m.any (fun p => p.1 = k) then
    m.map (fun p => if p.1 = k then (k, v) else p)
  else m ++ [(k, v)]

/-- Association-list removal, modelling `Map.prototype.delete`. -/
def alDel {α : Type} (m : List (Str × α)) (k : Str) : List (Str × α) :=
  m.filter (fun p => ¬ p.1 = k)

/-! ## Data model (src/types.ts) -/

/-- `TextStyle` from src/types.ts.  Optional JavaScript fields are `Option`s. -/
structure TextStyle where
  fontWeight : Str
  fontStyle : Str
  color : Str
  textDecoration : Option Str := none
  fontSize : Option ℚ := none
  verticalOffset : Option ℚ := none
  isListItem : Option Bool := none
  listNestingLevel : Option ℚ := none
  listType : Option Str := none
  deriving DecidableEq, Repr

/-- `TextSegment` from src/types.ts: a `TextStyle` plus the text run and the
spacing metadata assigned by the spacing analyzer. -/
structure TextSegment extends TextStyle where
  text : Str
  hasSpaceAfter : Option Bool := none
  spacingContext : Option Str := none
  deriving DecidableEq, Repr

/-- `PositionedTextSegment` from src/types.ts. -/
structure PositionedTextSegment extends TextSegment where
  x : ℚ
  y : ℚ
  width : ℚ
  height : ℚ
  deriving DecidableEq, Repr

/-- `TextMeasurement` from src/types.ts. -/
structure TextMeasurement where
  width : ℚ
  height : ℚ
  deriving DecidableEq, Repr

/-- `StyleHelpers.getDefaultStyle` from src/helpers/style.ts. -/
def getDefaultStyle : TextStyle :=
  { fontWeight := str "normal"
    fontStyle := str "normal"
    color := str "#000000"
    textDecoration := some (str "none") }

/-- `ParseResult` from src/types.ts. -/
structure ParseResult where
  segments : List TextSegment
  errors : List Str
  deriving DecidableEq, Repr

/-! ## String searching (JavaScript `String.prototype.indexOf` and regex helpers) -/

/-- Auxiliary scan for `jsIndexOf`: try each suffix in turn, tracking the
absolute index of the current suffix. -/
def findFromAux (needle : Str) : Str → Nat → Option Nat
  | [], i => if needle = [] then some i else none
  | h :: t, i =>
    if needle.isPrefixOf (h :: t) then some i else findFromAux needle t (i + 1)

/-- Model of `hay.indexOf(needle, start)`: the least index `≥ start` at which
`needle` occurs in `hay` (`none` models the JavaScript result `-1`). -/
def jsIndexOf (hay needle : Str) (start : Nat) : Option Nat :=
  findFromAux needle (hay.drop start) start

/-- Model of `hay.includes(sub)` / a plain regex substring test. -/
def containsStr (hay sub : Str) : Bool := (jsIndexOf hay sub 0).isSome

/-- Model of `str.substring(a, b)` for `a ≤ b` (every call site in the
embedded code satisfies `a ≤ b`). -/
def jsSubstring (s : Str) (a b : Nat) : Str := (s.take b).drop a

/-- Word-character test for the JavaScript `\w` class. -/
def isWordChar (c : Char) : Bool :=
  (('a' ≤ c && c ≤ 'z') || ('A' ≤ c && c ≤ 'Z') || ('0' ≤ c && c ≤ '9') || c = '_')

mutual

/-- Model of `String.prototype.replace(/\s+/g, ' ')`: collapse every run of
whitespace characters to a single space. -/
def collapseWs : Str → Str
  | [] => []
  | c :: rest => if isWs c then ' ' :: collapseWsSkip rest else c :: collapseWs rest

/-- State of `collapseWs` inside a whitespace run (the single space has
already been emitted; further whitespace is skipped). -/
def collapseWsSkip : Str → Str
  | [] => []
  | c :: rest => if isWs c then collapseWsSkip rest else c :: collapseWs rest

end

/-! ## CSS style-attribute parsing (src/helpers/style.ts) -/

/-- Match the regex fragment `['"](.*?)['"]` at the start of `t`: an opening
quote of either kind, a lazily captured body (hence stopping at the first
quote character of either kind), and a closing quote that must be present. -/
def quoteCapture : Str → Option Str
  | [] => none
  | q :: t =>
    if q = '"' || q = '\'' then
      let cap := t.takeWhile (fun c => ¬ (c = '"' || c = '\''))
      if cap.length < t.length then some cap else none
    else none

/-- Leftmost match of `key['"](.*?)['"]` in the given string, returning the
captured group.  Used for the `style=`/`href=` attribute regexes. -/
def findAttrCapture (key : Str) : Str → Option Str
  | [] => none
  | h :: t =>
    if key.isPrefixOf (h :: t) then
      match quoteCapture ((h :: t).drop key.length) with
      | some c => some c
      | none => findAttrCapture key t
    else findAttrCapture key t

/-- `StyleHelpers.extractStyleAttribute`: first `style=['"]...['"]` capture,
`none` when absent or empty (the source tests `styleMatch && styleMatch[1]`,
and an empty capture is falsy). -/
def extractStyleAttribute (attributes : Str) : Option Str :=
  match findAttrCapture (str "style=") attributes with
  | some c => if c = [] then none else some c
  | none => none

/-- Match the regex fragment `\s*([^;]+)` at the start of `t`, with the
backtracking the JavaScript engine performs when the run after the optional
whitespace is empty (the greedy `\s*` gives characters back to `[^;]+`). -/
def cssCapture (t : Str) : Option Str :=
  let body := t.takeWhile (fun c => ¬ c = ';')
  if body = [] then none
  else
    let w := (body.takeWhile isWs).length
    some (body.drop (min w (body.length - 1)))

/-- Leftmost match of `key\s*([^;]+)` (the shape of the per-property regexes
`/color:\s*([^;]+)/` etc.), returning the captured value. -/
def findCssValue (key : Str) : Str → Option Str
  | [] => none
  | h :: t =>
    if key.isPrefixOf (h :: t) then
      match cssCapture ((h :: t).drop key.length) with
      | some c => some c
      | none => findCssValue key t
    else findCssValue key t

/-- Model of JavaScript `parseInt` on an already trimmed string: optional
sign followed by leading decimal digits; `none` models `NaN`. -/
def jsParseInt (s : Str) : Option Int :=
  let core : Str → Option Nat := fun t =>
    let ds := t.takeWhile Char.isDigit
    if ds = [] then none
    else some (ds.foldl (fun acc c => acc * 10 + (c.toNat - '0'.toNat)) 0)
  match s with
  | '-' :: t => (core t).map (fun n => -(n : Int))
  | '+' :: t => (core t).map (fun n => (n : Int))
  | t => (core t).map (fun n => (n : Int))

/-- `StyleHelpers.parseColor`: set `color` from the first `color:` CSS
declaration, if any. -/
def parseColor (styleStr : Str) (style : TextStyle) : TextStyle :=
  match findCssValue (str "color:") styleStr with
  | some v => { style with color := trimStr v }
  | none => style

/-- `StyleHelpers.parseFontWeight`: bold exactly when the value is the
literal `bold` or parses to an integer `≥ 600`; otherwise normal. -/
def parseFontWeight (styleStr : Str) (style : TextStyle) : TextStyle :=
  match findCssValue (str "font-weight:") styleStr with
  | some v =>
    let weight := trimStr v
    if weight = str "bold" || (match jsParseInt weight with
                               | some n => decide (n ≥ 600)
                               | none => false) then
      { style with fontWeight := str "bold" }
    else { style with fontWeight := str "normal" }
  | none => style

/-- `StyleHelpers.parseFontStyle`: italic for `italic`/`oblique`, else normal. -/
def parseFontStyle (styleStr : Str) (style : TextStyle) : TextStyle :=
  match findCssValue (str "font-style:") styleStr with
  | some v =>
    let fs := trimStr v
    if fs = str "italic" ∨ fs = str "oblique" then
      { style with fontStyle := str "italic" }
    else { style with fontStyle := str "normal" }
  | none => style

/-- `StyleHelpers.parseTextDecoration`: underline when the value contains the
substring `underline`, else none. -/
def parseTextDecoration (styleStr : Str) (style : TextStyle) : TextStyle :=
  match findCssValue (str "text-decoration:") styleStr with
  | some v =>
    if containsStr (trimStr v) (str "underline") then
      { style with textDecoration := some (str "underline") }
    else { style with textDecoration := some (str "none") }
  | none => style

/-- `StyleHelpers.parseAllCssProperties`: the four parsers in source order. -/
def parseAllCssProperties (styleStr : Str) (style : TextStyle) : TextStyle :=
  parseTextDecoration styleStr (parseFontStyle styleStr (parseFontWeight styleStr (parseColor styleStr style)))

/-! ## CSS style-attribute validation (src/helpers/style.ts) -/

/-- Character class `[a-zA-Z-]` of the CSS property-name regex. -/
def isCssNameChar (c : Char) : Bool :=
  ('a' ≤ c && c ≤ 'z') || ('A' ≤ c && c ≤ 'Z') || c = '-'

/-- Match `([a-zA-Z-]+)\s*:\s*([^;]+)` at the start of `s`; on success return
the property name, the captured value and the remainder of the string after
the match. -/
def cssMatchAt (s : Str) : Option (Str × Str × Str) :=
  let name := s.takeWhile isCssNameChar
  if name = [] then none
  else
    let t1 := (s.drop name.length).dropWhile isWs
    match t1 with
    | ':' :: t2 =>
      let body := t2.takeWhile (fun c => ¬ c = ';')
      if body = [] then none
      else
        let w := (body.takeWhile isWs).length
        some (name, body.drop (min w (body.length - 1)), t2.drop body.length)
    | _ => none

/-- Iterate the global regex `/([a-zA-Z-]+)\s*:\s*([^;]+)/g` over `s`,
collecting every (property, value) match in order. -/
def cssPairsGo : Nat → Str → List (Str × Str)
  | 0, _ => []
  | _, [] => []
  | fuel + 1, h :: t =>
    match cssMatchAt (h :: t) with
    | some (n, v, rest) => (n, v) :: cssPairsGo fuel rest
    | none => cssPairsGo fuel t

/-- All CSS (property, value) pairs of a style string. -/
def cssPairs (s : Str) : List (Str × Str) := cssPairsGo (s.length + 1) s

/-- `VALID_FONT_WEIGHTS` from src/constants.ts. -/
def validFontWeights : List Str :=
  [str "normal", str "bold", str "100", str "200", str "300", str "400",
   str "500", str "600", str "700", str "800", str "900"]

/-- `VALID_FONT_STYLES` from src/constants.ts. -/
def validFontStyles : List Str := [str "normal", str "italic", str "oblique"]

/-- `VALID_TEXT_DECORATIONS` from src/constants.ts. -/
def validTextDecorations : List Str := [str "none", str "underline", str "line-through"]

/-- Test of the color-value regex `^(#[0-9a-f]{3,6}|[a-z]+|rgb\(.*\))$/i`. -/
def colorValueOk (value : Str) : Bool :=
  let v := lowerStr value
  (match v with
   | '#' :: rest =>
     decide (3 ≤ rest.length) && decide (rest.length ≤ 6) &&
       rest.all (fun c => ('0' ≤ c && c ≤ '9') || ('a' ≤ c && c ≤ 'f'))
   | _ => false) ||
  (!v.isEmpty && v.all (fun c => 'a' ≤ c && c ≤ 'z')) ||
  ((str "rgb(").isPrefixOf v && v.getLast? = some ')' && decide (5 ≤ v.length))

/-- `StyleHelpers.validateCssProperty`. -/
def validateCssProperty (property value : Str) : List Str :=
  if property = str "font-weight" then
    if validFontWeights.contains value then [] else [str "Invalid font-weight value: " ++ value]
  else if property = str "font-style" then
    if validFontStyles.contains value then [] else [str "Invalid font-style value: " ++ value]
  else if property = str "text-decoration" then
    if validTextDecorations.any (fun dec => containsStr value dec) then []
    else [str "Invalid text-decoration value: " ++ value]
  else if property = str "color" then
    if colorValueOk value then [] else [str "Invalid color value: " ++ value]
  else []

/-- Valid CSS property names accepted by `StyleHelpers.validateStyleAttribute`. -/
def validCssProperties : List Str :=
  [str "color", str "font-weight", str "font-style", str "text-decoration"]

/-- `StyleHelpers.validateStyleAttribute`: collect errors for every CSS
declaration in the `style` attribute. -/
def validateStyleAttribute (attributes : Str) : List Str :=
  match extractStyleAttribute attributes with
  | none => []
  | some styleStr =>
    (cssPairs styleStr).foldl
      (fun errs p =>
        let property := trimStr p.1
        let value := trimStr p.2
        if validCssProperties.contains property then
          errs ++ validateCssProperty property value
        else errs ++ [str "Unsupported CSS property: " ++ property])
      []

/-! ## External JavaScript runtime facilities -/

/-- Behavior of the host runtime that the embedding treats as an oracle:
whether `new URL(url)` succeeds (WHATWG URL parsing, used only by the
hyperlink strategy's `href` validation).  Every theorem quantifies over it. -/
structure JsEnv where
  urlParses : Str → Bool

/-- A canonical runtime instance, used to instantiate witnesses. -/
def defaultEnv : JsEnv := ⟨fun _ => true⟩

/-- `HyperlinkTagStrategy.isValidUrl`. -/
def isValidUrl (env : JsEnv) (url : Str) : Bool :=
  if (str "/").isPrefixOf url || (str "./").isPrefixOf url || (str "../").isPrefixOf url then true
  else if (str "http://").isPrefixOf url || (str "https://").isPrefixOf url then env.urlParses url
  else if containsStr url (str "://") then true
  else if (str "#").isPrefixOf url || (str "?").isPrefixOf url then true
  else false

/-- `HyperlinkTagStrategy.validateAttributes`. -/
def hyperlinkValidate (env : JsEnv) (attributes : Str) : List Str :=
  match findAttrCapture (str "href=") attributes with
  | none => []
  | some href =>
    (if href = [] ∨ trimStr href = [] then [str "Hyperlink has empty href attribute"] else []) ++
    (if href ≠ [] ∧ isValidUrl env href = false then [str "Invalid URL in href attribute"] else [])

/-! ## List attribute validation (shared by the list-family strategies) -/

/-- The attribute-name alternation `(class|id|style|type|start)` of the list
attribute regex (tried in source order; the names are prefix-disjoint so the
alternation is deterministic). -/
def listAttrKeywords : List Str :=
  [str "class", str "id", str "style", str "type", str "start"]

/-- Consume one `\s*(class|id|style|type|start)\s*=\s*["'][^"']*["']\s*`
group at the start of `s` (already lower-cased), returning the rest. -/
def chompListAttr (s : Str) : Option Str :=
  let s1 := s.dropWhile isWs
  match listAttrKeywords.find? (fun kw => kw.isPrefixOf s1) with
  | none => none
  | some kw =>
    let s2 := (s1.drop kw.length).dropWhile isWs
    match s2 with
    | '=' :: s3 =>
      match s3.dropWhile isWs with
      | [] => none
      | q :: t =>
        if q = '"' || q = '\'' then
          let body := t.takeWhile (fun c => ¬ (c = '"' || c = '\''))
          if body.length < t.length then
            some ((t.drop (body.length + 1)).dropWhile isWs)
          else none
        else none
    | _ => none

/-- Anchored acceptance `^(...)*$` of the list attribute pattern. -/
def listAttrsAccept : Nat → Str → Bool
  | _, [] => true
  | 0, _ => false
  | fuel + 1, s => match chompListAttr s with
      | some rest => listAttrsAccept fuel rest
      | none => false

/-- `validateCommonListAttributes` from the list strategies (the identical
private method of the `ul`/`ol`/`li` strategies and the composite): the
trimmed attribute string must match the list attribute pattern
(case-insensitively, hence the lower-casing). -/
def listValidate (attributes : Str) : List Str :=
  let t := trimStr attributes
  if t ≠ [] then
    if listAttrsAccept (t.length + 1) (lowerStr t) then []
    else [str "Invalid or unsupported attributes for list tag"]
  else []

/-! ## Text helpers (src/helpers/text.ts) -/

/-- `TextHelpers.needsLineBreak`: the accumulated segment list ends in a
segment that is neither the newline sentinel nor whitespace-only text. -/
def needsLineBreak (segments : List TextSegment) : Bool :=
  match segments.getLast? with
  | none => false
  | some lastSegment => lastSegment.text ≠ str "\n" && trimStr lastSegment.text ≠ []

/-- `TextHelpers.hasMoreContent`:
`remainingParts.slice(currentIndex).join('').trim().length > 0`. -/
def hasMoreContent (remainingParts : List Str) (currentIndex : Nat) : Bool :=
  trimStr ((remainingParts.drop currentIndex).foldl (· ++ ·) []) ≠ []

/-- `TextHelpers.normalizeSegmentWhitespace`: trim each non-newline segment's
text, dropping segments that become empty; newline sentinels pass through. -/
def normalizeSegmentWhitespace (segments : List TextSegment) : List TextSegment :=
  segments.foldr
    (fun segment acc =>
      if segment.text = str "\n" then segment :: acc
      else
        let trimmedText := trimStr segment.text
        if trimmedText = [] then acc
        else { segment with text := trimmedText } :: acc)
    []

/-- `TextHelpers.cleanHtmlWhitespace`: `html.replace(/\s+/g, ' ').trim()`. -/
def cleanHtmlWhitespace (html : Str) : Str := trimStr (collapseWs html)

/-! ## Composite family state (src/helpers/composite.ts, `CompositeHelpers`) -/

/-- The static `counters` and `stacks` maps of `CompositeHelpers`, passed
explicitly.  Stacks grow at the list tail, mirroring `Array.push`/`pop`. -/
structure CompositeState where
  counters : List (Str × List (Str × Nat))
  stacksMap : List (Str × List Str)
  deriving DecidableEq, Repr

/-- State after `CompositeHelpers.resetCompositeState()` with no argument. -/
def emptyComposite : CompositeState := ⟨[], []⟩

/-- `CompositeHelpers.generateCounterKey`: `` `${family}-${tagType}-${nestingLevel}` ``. -/
def generateCounterKey (family tagType : Str) (nestingLevel : Nat) : Str :=
  family ++ str "-" ++ tagType ++ str "-" ++ natToStr nestingLevel

/-- `CompositeHelpers.pushToStack`. -/
def pushToStack (st : CompositeState) (family tagType : Str) (needsCounter : Bool) :
    CompositeState :=
  let stack := (alGet st.stacksMap family).getD []
  let stack' := stack ++ [tagType]
  let stacks' := alSet st.stacksMap family stack'
  if needsCounter then
    let famCounters := (alGet st.counters family).getD []
    let key := generateCounterKey family tagType stack'.length
    { counters := alSet st.counters family (alSet famCounters key 0), stacksMap := stacks' }
  else { st with stacksMap := stacks' }

/-- `CompositeHelpers.popFromStack` (returns the popped tag type, if any). -/
def popFromStack (st : CompositeState) (family : Str) (shouldCleanupCounters : Bool) :
    CompositeState × Option Str :=
  match alGet st.stacksMap family with
  | none => (st, none)
  | some stack =>
    match stack.getLast? with
    | none => (st, none)
    | some poppedType =>
      let stack' := stack.dropLast
      let stacks' := alSet st.stacksMap family stack'
      if shouldCleanupCounters then
        match alGet st.counters family with
        | some famCounters =>
          let key := generateCounterKey family poppedType (stack'.length + 1)
          ({ counters := alSet st.counters family (alDel famCounters key),
             stacksMap := stacks' }, some poppedType)
        | none => ({ st with stacksMap := stacks' }, some poppedType)
      else ({ st with stacksMap := stacks' }, some poppedType)

/-- `CompositeHelpers.getCurrentNestingLevel`. -/
def getCurrentNestingLevel (st : CompositeState) (family : Str) : Nat :=
  ((alGet st.stacksMap family).getD []).length

/-- `CompositeHelpers.getParentType`. -/
def getParentType (st : CompositeState) (family : Str) : Option Str :=
  ((alGet st.stacksMap family).getD []).getLast?

/-- `CompositeHelpers.incrementAndGetCounter`. -/
def incrementAndGetCounter (st : CompositeState) (family tagType : Str)
    (nestingLevel : Nat) : CompositeState × Nat :=
  match alGet st.counters family with
  | none => (st, 1)
  | some famCounters =>
    let key := generateCounterKey family tagType nestingLevel
    let currentCount := (alGet famCounters key).getD 0 + 1
    ({ st with counters := alSet st.counters family (alSet famCounters key currentCount) },
     currentCount)

/-! ## List helpers (src/helpers/composite.ts, `ListHelpers`) -/

/-- The `ListHelpers.FAMILY` constant. -/
def listFamily : Str := str "list"

/-- `LIST_PREFIXES.BULLET` from src/constants.ts. -/
def bulletText : Str := str "• "

/-- `ListHelpers.getListItemPrefix` (named with a `Text` suffix here):
bullet under a `ul` parent, `<n>. ` with an incremented depth-scoped counter
under an `ol` parent, empty otherwise.  Returns the updated composite state. -/
def getListItemPrefixText (st : CompositeState) (listItemTag : Str) :
    CompositeState × Str :=
  if listItemTag ≠ str "li" then (st, [])
  else
    match getParentType st listFamily with
    | some parent =>
      if parent = str "ul" then (st, bulletText)
      else if parent = str "ol" then
        let nestingLevel := getCurrentNestingLevel st listFamily
        let r := incrementAndGetCounter st listFamily (str "ol") nestingLevel
        (r.1, natToStr r.2 ++ str ". ")
      else (st, [])
    | none => (st, [])

/-- `ListHelpers.applyListStyling`. -/
def applyListStyling (st : CompositeState) (style : TextStyle) (tagName : Str) :
    TextStyle :=
  if lowerStr tagName = str "li" then
    { style with
      isListItem := some true
      listNestingLevel := some ((getCurrentNestingLevel st listFamily : ℚ))
      listType := getParentType st listFamily }
  else style

/-- `ListHelpers.calculateListIndentation`:
`20 + (nestingLevel − 1) × 20` pixels for positive levels, else 0. -/
def calculateListIndentation (nestingLevel : ℚ) : ℚ :=
  if nestingLevel ≤ 0 then 0 else 20 + (nestingLevel - 1) * 20

/-! ## Tag strategies (src/strategies/implementations) -/

/-- `ParsedOutput` from src/types.ts. -/
structure ParsedOutput where
  newSegments : List TextSegment
  updatedStyle : TextStyle
  pushStyleToStack : Bool
  popFromStyleStack : Bool
  errors : List Str
  deriving DecidableEq, Repr

/-- `ParseContext` from src/types.ts. -/
structure ParseContext where
  currentStyle : TextStyle
  segments : List TextSegment
  attributes : Str
  tagName : Str
  isClosingTag : Bool
  remainingParts : List Str
  currentIndex : Nat
  deriving DecidableEq, Repr

/-- The newline sentinel segment `{ text: '\n', ...style }`. -/
def newlineSeg (style : TextStyle) : TextSegment :=
  { toTextStyle := style, text := str "\n" }

/-- `headingSizes` from src/constants.ts. -/
def headingSizes (tag : Str) : Option ℚ :=
  if tag = str "h1" then some 32
  else if tag = str "h2" then some 24
  else if tag = str "h3" then some (18.72 : ℚ)
  else if tag = str "h4" then some 16
  else if tag = str "h5" then some (13.28 : ℚ)
  else if tag = str "h6" then some (10.72 : ℚ)
  else none

/-- `colorMap` from src/constants.ts. -/
def colorMap (name : Str) : Option Str :=
  if name = str "red" then some (str "#FF0000")
  else if name = str "green" then some (str "#00FF00")
  else if name = str "blue" then some (str "#0000FF")
  else if name = str "yellow" then some (str "#FFFF00")
  else if name = str "orange" then some (str "#FFA500")
  else if name = str "purple" then some (str "#800080")
  else if name = str "black" then some (str "#000000")
  else none

/-- `BoldTagStrategy.applyStyle`. -/
def boldApplyStyle (currentStyle : TextStyle) : TextStyle :=
  { currentStyle with fontWeight := str "bold" }

/-- `ItalicTagStrategy.applyStyle`. -/
def italicApplyStyle (currentStyle : TextStyle) : TextStyle :=
  { currentStyle with fontStyle := str "italic" }

/-- `UnderlineTagStrategy.applyStyle`. -/
def underlineApplyStyle (currentStyle : TextStyle) : TextStyle :=
  { currentStyle with textDecoration := some (str "underline") }

/-- `SpanTagStrategy.applyStyle`. -/
def spanApplyStyle (currentStyle : TextStyle) (attributes : Str) : TextStyle :=
  match extractStyleAttribute attributes with
  | none => currentStyle
  | some styleStr => parseAllCssProperties styleStr currentStyle

/-- `HeadingTagStrategy.applyStyle` (the parser always passes the tag name). -/
def headingApplyStyle (currentStyle : TextStyle) (tagName : Str) : TextStyle :=
  { currentStyle with
    fontWeight := str "bold"
    fontSize := some ((headingSizes (lowerStr tagName)).getD 16) }

/-- `HyperlinkTagStrategy.applyStyle`. -/
def hyperlinkApplyStyle (currentStyle : TextStyle) : TextStyle :=
  { currentStyle with
    color := str "#0066CC"
    textDecoration := some (str "underline") }

/-- `CodeTagStrategy.applyStyle`. -/
def codeApplyStyle (currentStyle : TextStyle) : TextStyle :=
  { currentStyle with color := str "#d63384" }

/-- The base font size used by `SmallTextTagStrategy.applyStyle`:
`currentStyle.fontSize || 14`, so a present-but-zero size falls back to 14
(JavaScript falsiness). -/
def effectiveSmallTextBase (currentStyle : TextStyle) : ℚ :=
  match currentStyle.fontSize with
  | some f => if f = 0 then 14 else f
  | none => 14

/-- `SmallTextTagStrategy.applyStyle`: 75% font scaling plus a tag-specific
vertical offset (`sub`/`sup`) or muted color (`small`). -/
def smallTextApplyStyle (currentStyle : TextStyle) (tagName : Option Str) : TextStyle :=
  let baseFontSize : ℚ := effectiveSmallTextBase currentStyle
  let smallerFontSize := baseFontSize * (0.75 : ℚ)
  match tagName.map lowerStr with
  | some t =>
    if t = str "sub" then
      { currentStyle with
        fontSize := some smallerFontSize
        verticalOffset := some (baseFontSize * (0.15 : ℚ)) }
    else if t = str "sup" then
      { currentStyle with
        fontSize := some smallerFontSize
        verticalOffset := some (-(baseFontSize * (0.35 : ℚ))) }
    else if t = str "small" then
      { currentStyle with
        fontSize := some smallerFontSize
        color := str "#6c757d" }
    else currentStyle
  | none => currentStyle

/-- `HighlightTagStrategy.applyStyle`. -/
def highlightApplyStyle (currentStyle : TextStyle) : TextStyle :=
  { currentStyle with color := str "#212529" }

/-- `StrikethroughTagStrategy.applyStyle`. -/
def strikethroughApplyStyle (currentStyle : TextStyle) : TextStyle :=
  { currentStyle with
    textDecoration := some (str "line-through")
    color := str "#6c757d" }

/-- `BaseTagStrategy.parse`, shared by every simple style-only strategy:
closing pops the style stack; opening validates, applies the style transform
and pushes. -/
def defaultParse (validate : Str → List Str)
    (applySty : TextStyle → Str → Str → TextStyle) (context : ParseContext) :
    ParsedOutput :=
  if context.isClosingTag then
    { newSegments := []
      updatedStyle := context.currentStyle
      pushStyleToStack := false
      popFromStyleStack := true
      errors := [] }
  else
    { newSegments := []
      updatedStyle := applySty context.currentStyle context.attributes context.tagName
      pushStyleToStack := true
      popFromStyleStack := false
      errors := validate context.attributes }

/-- `HeadingTagStrategy.parse`: block-level bracketing with newline
sentinels around the heading. -/
def headingParse (context : ParseContext) : ParsedOutput :=
  if context.isClosingTag then
    { newSegments :=
        if hasMoreContent context.remainingParts context.currentIndex then
          [newlineSeg context.currentStyle] else []
      updatedStyle := context.currentStyle
      pushStyleToStack := false
      popFromStyleStack := true
      errors := [] }
  else
    { newSegments :=
        if needsLineBreak context.segments then [newlineSeg context.currentStyle] else []
      updatedStyle := headingApplyStyle context.currentStyle context.tagName
      pushStyleToStack := true
      popFromStyleStack := false
      errors := [] }

/-- `ParagraphTagStrategy.parse` via the block-level handlers of
`BaseTagStrategy` (the style transform is the identity copy). -/
def paragraphParse (context : ParseContext) : ParsedOutput :=
  if context.isClosingTag then
    { newSegments :=
        if hasMoreContent context.remainingParts context.currentIndex then
          [newlineSeg context.currentStyle] else []
      updatedStyle := context.currentStyle
      pushStyleToStack := false
      popFromStyleStack := true
      errors := [] }
  else
    { newSegments :=
        if needsLineBreak context.segments then [newlineSeg context.currentStyle] else []
      updatedStyle := context.currentStyle
      pushStyleToStack := true
      popFromStyleStack := false
      errors := [] }

/-- `LineBreakTagStrategy.parse`: an opening `<br>` emits one newline segment
and touches the stack in neither direction; a closing `</br>` is an error. -/
def lineBreakParse (context : ParseContext) : ParsedOutput :=
  if context.isClosingTag then
    { newSegments := []
      updatedStyle := context.currentStyle
      pushStyleToStack := false
      popFromStyleStack := false
      errors := [str "Unexpected closing tag for self-closing <br> element"] }
  else
    { newSegments := [newlineSeg context.currentStyle]
      updatedStyle := context.currentStyle
      pushStyleToStack := false
      popFromStyleStack := false
      errors := [] }

/-- `UnorderedListStrategy.parse` / `OrderedListStrategy.parse` (identical
bodies): closing emits a trailing newline when more content follows and pops;
opening validates, emits a leading newline when needed and pushes a copy of
the current style. -/
def listContainerParse (context : ParseContext) : ParsedOutput :=
  if context.isClosingTag then
    { newSegments :=
        if hasMoreContent context.remainingParts context.currentIndex then
          [newlineSeg context.currentStyle] else []
      updatedStyle := context.currentStyle
      pushStyleToStack := false
      popFromStyleStack := true
      errors := [] }
  else
    { newSegments :=
        if needsLineBreak context.segments then [newlineSeg context.currentStyle] else []
      updatedStyle := context.currentStyle
      pushStyleToStack := true
      popFromStyleStack := false
      errors := listValidate context.attributes }

/-- `ListItemStrategy.parse`: closing pops; opening validates, emits a
leading newline when needed, derives the list-item style, and emits the
list prefix as its own segment with decoration/weight/style/color reset and
`spacingContext: 'list-prefix'`, `hasSpaceAfter: true`. -/
def listItemParse (context : ParseContext) (comp : CompositeState) :
    ParsedOutput × CompositeState :=
  if context.isClosingTag then
    ({ newSegments := []
       updatedStyle := context.currentStyle
       pushStyleToStack := false
       popFromStyleStack := true
       errors := [] }, comp)
  else
    let errors := listValidate context.attributes
    let pre := if needsLineBreak context.segments then [newlineSeg context.currentStyle] else []
    let newStyle := applyListStyling comp context.currentStyle (str "li")
    let r := getListItemPrefixText comp (str "li")
    let prefixSegs : List TextSegment :=
      if r.2 ≠ [] then
        [{ toTextStyle :=
             { newStyle with
               textDecoration := some (str "none")
               fontWeight := str "normal"
               fontStyle := str "normal"
               color := str "#000000" }
           text := r.2
           hasSpaceAfter := some true
           spacingContext := some (str "list-prefix") }]
      else []
    ({ newSegments := pre ++ prefixSegs
       updatedStyle := newStyle
       pushStyleToStack := true
       popFromStyleStack := false
       errors := errors }, r.1)

/-- `CompositeParseStrategy.parse` for the list family (`ListTagStrategy`):
manage the family stack/counters per the stack configuration
(`ul` pushes/pops without a counter, `ol` with one, `li` leaves the stack
alone), then delegate to the child strategy. -/
def listCompositeParse (context : ParseContext) (comp : CompositeState) :
    ParsedOutput × CompositeState :=
  let tagName := lowerStr context.tagName
  if tagName = str "ul" then
    let comp' :=
      if context.isClosingTag then (popFromStack comp listFamily false).1
      else pushToStack comp listFamily tagName false
    (listContainerParse context, comp')
  else if tagName = str "ol" then
    let comp' :=
      if context.isClosingTag then (popFromStack comp listFamily true).1
      else pushToStack comp listFamily tagName true
    (listContainerParse context, comp')
  else if tagName = str "li" then
    listItemParse context comp
  else
    ({ newSegments := []
       updatedStyle := context.currentStyle
       pushStyleToStack := false
       popFromStyleStack := false
       errors := [str "Unknown tag in composite strategy: " ++ context.tagName] }, comp)

/-! ## Strategy registry (src/strategies/index.ts) -/

/-- The strategy classes registered by `createDefaultTagStrategyRegistry`. -/
inductive Strategy
  | bold | italic | underline | span | heading | paragraph | hyperlink
  | lineBreak | code | smallText | highlight | strikethrough | listFam
  deriving DecidableEq, Repr

/-- Registry lookup from tag name to strategy.  The registry class itself
(src/strategies/registry) is not among the provided sources; per the spec it
is a plain lookup table mapping each tag name declared by `getTagNames()` to
its strategy, so the lookup is modelled from the spec as the union of the
default registrations in `createDefaultTagStrategyRegistry`. -/
def getStrategy (n : Str) : Option Strategy :=
  if n = str "b" ∨ n = str "strong" then some .bold
  else if n = str "i" ∨ n = str "em" then some .italic
  else if n = str "u" then some .underline
  else if n = str "span" then some .span
  else if n = str "h1" ∨ n = str "h2" ∨ n = str "h3" ∨ n = str "h4" ∨
          n = str "h5" ∨ n = str "h6" then some .heading
  else if n = str "p" then some .paragraph
  else if n = str "a" then some .hyperlink
  else if n = str "br" then some .lineBreak
  else if n = str "code" ∨ n = str "pre" ∨ n = str "kbd" ∨ n = str "samp" then some .code
  else if n = str "small" ∨ n = str "sub" ∨ n = str "sup" then some .smallText
  else if n = str "mark" then some .highlight
  else if n = str "s" ∨ n = str "strike" ∨ n = str "del" then some .strikethrough
  else if n = str "ul" ∨ n = str "ol" ∨ n = str "li" then some .listFam
  else none

/-- Dispatch `strategy.parse(context)`, threading the composite family state
(only the list family touches it). -/
def strategyParse (env : JsEnv) (strat : Strategy) (context : ParseContext)
    (comp : CompositeState) : ParsedOutput × CompositeState :=
  match strat with
  | .bold => (defaultParse (fun _ => []) (fun s _ _ => boldApplyStyle s) context, comp)
  | .italic => (defaultParse (fun _ => []) (fun s _ _ => italicApplyStyle s) context, comp)
  | .underline => (defaultParse (fun _ => []) (fun s _ _ => underlineApplyStyle s) context, comp)
  | .span => (defaultParse validateStyleAttribute (fun s a _ => spanApplyStyle s a) context, comp)
  | .heading => (headingParse context, comp)
  | .paragraph => (paragraphParse context, comp)
  | .hyperlink =>
    (defaultParse (hyperlinkValidate env) (fun s _ _ => hyperlinkApplyStyle s) context, comp)
  | .lineBreak => (lineBreakParse context, comp)
  | .code => (defaultParse (fun _ => []) (fun s _ _ => codeApplyStyle s) context, comp)
  | .smallText =>
    (defaultParse (fun _ => []) (fun s _ t => smallTextApplyStyle s (some t)) context, comp)
  | .highlight => (defaultParse (fun _ => []) (fun s _ _ => highlightApplyStyle s) context, comp)
  | .strikethrough =>
    (defaultParse (fun _ => []) (fun s _ _ => strikethroughApplyStyle s) context, comp)
  | .listFam => listCompositeParse context comp

/-! ## The scanner loop (`HTMLParser.parseHTML`, src/parser.ts) -/

/-- One cycle of the split array produced by
`html.split(/<(\/?)([a-zA-Z][a-zA-Z0-9]*)([^>]*)>/gi)`: the closing-slash
capture, the tag name, the raw attributes, and the following text part. -/
structure Chunk where
  slash : Str
  name : Str
  attrs : Str
  text : Str
  deriving DecidableEq, Repr

/-- Flatten chunks back into the raw parts array (without the leading text). -/
def partsOf (cs : List Chunk) : List Str :=
  cs.foldr (fun c acc => c.slash :: c.name :: c.attrs :: c.text :: acc) []

/-- The mutable state of the scan loop. -/
structure ScanState where
  segments : List TextSegment
  errors : List Str
  currentStyle : TextStyle
  styleStack : List TextStyle
  comp : CompositeState
  deriving DecidableEq, Repr

/-- State at loop entry: default current style, a one-element style stack
holding a copy of it, and freshly reset list-family state. -/
def initState : ScanState :=
  { segments := []
    errors := []
    currentStyle := getDefaultStyle
    styleStack := [getDefaultStyle]
    comp := emptyComposite }

/-- Text-part handling (`i % 4 === 0`): a part with non-blank trimmed content
becomes a segment carrying the current style verbatim (untrimmed text). -/
def handleText (txt : Str) (st : ScanState) : ScanState :=
  if trimStr txt ≠ [] then
    { st with segments := st.segments ++ [{ toTextStyle := st.currentStyle, text := txt }] }
  else st

/-- Closing-tag handling (`i % 4 === 1` with a `/` part): resolve the
strategy, apply its output, and pop the style stack only when requested and
the stack holds more than one entry.  `i` is the absolute index of the
slash part in the split array. -/
def handleClose (env : JsEnv) (c : Chunk) (rest : List Chunk) (i : Nat)
    (st : ScanState) : ScanState :=
  let closingTagName := lowerStr c.name
  match getStrategy closingTagName with
  | none => { st with errors := st.errors ++ [str "Unsupported closing tag: " ++ closingTagName] }
  | some strat =>
    let context : ParseContext :=
      { currentStyle := st.currentStyle
        segments := st.segments
        attributes := []
        tagName := closingTagName
        isClosingTag := true
        remainingParts := c.attrs :: c.text :: partsOf rest
        currentIndex := i }
    let r := strategyParse env strat context st.comp
    let st' := { st with
      segments := st.segments ++ r.1.newSegments
      errors := st.errors ++ r.1.errors
      comp := r.2 }
    if r.1.popFromStyleStack && decide (st'.styleStack.length > 1) then
      let stack' := st'.styleStack.dropLast
      match stack'.getLast? with
      | some prevStyle => { st' with styleStack := stack', currentStyle := prevStyle }
      | none => { st' with styleStack := stack' }
    else st'

/-- Opening-tag handling (`i % 4 === 2` not preceded by `/`): resolve the
strategy, apply its output, and push the returned style when requested.
`i` is again the absolute index of the (empty) slash part, so the tag name
sits at index `i + 1`. -/
def handleOpen (env : JsEnv) (c : Chunk) (rest : List Chunk) (i : Nat)
    (st : ScanState) : ScanState :=
  let tagName := lowerStr c.name
  match getStrategy tagName with
  | none => { st with errors := st.errors ++ [str "Unsupported tag: " ++ tagName] }
  | some strat =>
    let context : ParseContext :=
      { currentStyle := st.currentStyle
        segments := st.segments
        attributes := c.attrs
        tagName := tagName
        isClosingTag := false
        remainingParts := (partsOf rest).drop 1
        currentIndex := i + 1 }
    let r := strategyParse env strat context st.comp
    let st' := { st with
      segments := st.segments ++ r.1.newSegments
      errors := st.errors ++ r.1.errors
      comp := r.2 }
    if r.1.pushStyleToStack then
      { st' with
        styleStack := st'.styleStack ++ [r.1.updatedStyle]
        currentStyle := r.1.updatedStyle }
    else st'

/-- The tag-handling part of one loop cycle: a `/` part with a nonempty tag
name dispatches the closing handler; a nonempty tag name not preceded by `/`
dispatches the opening handler; blank parts fall through (`if (!part)
continue`). -/
def scanStep (env : JsEnv) (c : Chunk) (rest : List Chunk) (i : Nat)
    (st : ScanState) : ScanState :=
  if c.slash = str "/" then
    if c.name ≠ [] then handleClose env c rest i st else st
  else
    if c.name ≠ [] then handleOpen env c rest i st else st

/-- The scan loop over the chunked split array.  `i` is the absolute index
of the current chunk's slash part (the first chunk has `i = 1`). -/
def scanChunks (env : JsEnv) : List Chunk → Nat → ScanState → ScanState
  | [], _, st => st
  | c :: rest, i, st =>
    scanChunks env rest (i + 4) (handleText c.text (scanStep env c rest i st))

/-- The whole scan of `parseHTML`: the leading text part, then the chunks. -/
def scanHTML (env : JsEnv) (t0 : Str) (cs : List Chunk) : ScanState :=
  scanChunks env cs 1 (handleText t0 initState)

/-! ### Derived notions about the scan, used to state the stack claims -/

/-- Whether the strategy registered for tag name `n` pushes a style on its
opening tag — equivalently (verified below) whether it pops on its closing
tag.  Every registered strategy pushes and pops except the self-closing
`<br>`; unregistered names change nothing.  (The list-family case lists its
child tags explicitly; for names reaching it from the registry the
disjunction is always true.) -/
def tagPushes (n : Str) : Bool :=
  match getStrategy n with
  | none => false
  | some .lineBreak => false
  | some .listFam =>
    lowerStr n = str "ul" || lowerStr n = str "ol" || lowerStr n = str "li"
  | some _ => true

/-- The tag event a chunk contributes to the scan: a closing event for a `/`
part with a nonempty name, an opening event for a nonempty name without `/`,
nothing otherwise.  Names are lower-cased as in the scan. -/
def chunkEvent (c : Chunk) : Option (Bool × Str) :=
  if c.slash = str "/" then
    if c.name = [] then none else some (true, lowerStr c.name)
  else
    if c.name = [] then none else some (false, lowerStr c.name)

/-- The sequence of tag events of a chunk list. -/
def tagEvents (cs : List Chunk) : List (Bool × Str) := cs.filterMap chunkEvent

/-- Run the tag events against an open-tag stack: an opening event pushes
its name, a closing event must find its name on top and pops it. -/
def dyckRun : List (Bool × Str) → List Str → Option (List Str)
  | [], stack => some stack
  | (false, n) :: evs, stack => dyckRun evs (n :: stack)
  | (true, n) :: evs, stack =>
    match stack with
    | [] => none
    | m :: stack' => if m = n then dyckRun evs stack' else none

/-- Well-formed input: every opening tag is matched by a corresponding
closing tag, properly nested. -/
def WellFormedChunks (cs : List Chunk) : Prop := dyckRun (tagEvents cs) [] = some []

/-- The number of currently open tags whose strategy pushed a style. -/
def pushWeight (opens : List Str) : Nat :=
  (opens.filter (fun n => tagPushes n)).length

/-- Chunk lists that never dispatch the hyperlink strategy (the only
strategy consulting the runtime oracle). -/
def noHyperlink (cs : List Chunk) : Bool :=
  cs.all (fun c => ¬ getStrategy (lowerStr c.name) = some .hyperlink)

/-! ## Spacing analyzer (src/spacing-analyzer.ts) -/

/-- Existence semantics of the case-insensitive fallback regex
`current([^\w\s]*)(\s+)([^\w\s]*)next`: some occurrence of `a`, then a run
of non-word non-space characters, at least one whitespace character, another
non-word non-space run, then `b`. -/
def textPatternSpacing (a b hay : Str) : Bool :=
  let A := lowerStr a
  let B := lowerStr b
  let H := lowerStr hay
  (List.range (H.length + 1)).any fun i =>
    A.isPrefixOf (H.drop i) &&
    (let r1 := (H.drop i).drop A.length
     (List.range (r1.length + 1)).any fun k1 =>
       ((r1.take k1).all (fun c => !(isWordChar c) && !(isWs c))) &&
       (let r2 := r1.drop k1
        (List.range (r2.length + 1)).any fun k2 =>
          decide (1 ≤ k2) && ((r2.take k2).all isWs) &&
          (let r3 := r2.drop k2
           (List.range (r3.length + 1)).any fun k3 =>
             ((r3.take k3).all (fun c => !(isWordChar c) && !(isWs c))) &&
             B.isPrefixOf (r3.drop k3))))

/-- `SpacingAnalyzer.analyzeTextPatternSpacing`: the fallback used when the
position mapping fails. -/
def analyzeTextPatternSpacing (current next : TextSegment) (originalHtml : Str) : Bool :=
  let currentText := trimStr current.text
  let nextText := trimStr next.text
  if currentText = [] ∨ nextText = [] then false
  else textPatternSpacing currentText nextText originalHtml

/-- Recursion underlying `SpacingAnalyzer.mapSegmentsToHtmlPositions`,
with the running `searchStartIndex`. -/
def mapPositionsAux (html : Str) : List TextSegment → Nat → List (Nat × Nat)
  | [], _ => []
  | segment :: rest, searchStartIndex =>
    if segment.text = str "\n" then
      (searchStartIndex, searchStartIndex) :: mapPositionsAux html rest searchStartIndex
    else
      let segmentText := trimStr segment.text
      if segmentText = [] then
        (searchStartIndex, searchStartIndex) :: mapPositionsAux html rest searchStartIndex
      else
        match jsIndexOf html segmentText searchStartIndex with
        | some textIndex =>
          (textIndex, textIndex + segmentText.length) ::
            mapPositionsAux html rest (textIndex + segmentText.length)
        | none =>
          (searchStartIndex, searchStartIndex) :: mapPositionsAux html rest searchStartIndex

/-- `SpacingAnalyzer.mapSegmentsToHtmlPositions` (the source stores the pairs
in a `Map` keyed by the segment index; a list in index order is the same
lookup). -/
def mapSegmentsToHtmlPositions (segments : List TextSegment) (html : Str) :
    List (Nat × Nat) :=
  mapPositionsAux html segments 0

/-- `SpacingAnalyzer.shouldHaveSpaceBetween`: never after newline sentinels;
with both positions mapped, test the slice between them for whitespace;
otherwise fall back to the text-pattern analysis. -/
def shouldHaveSpaceBetween (current next : TextSegment) (currentIndex : Nat)
    (originalHtml : Str) (positions : List (Nat × Nat)) : Bool :=
  if current.text = str "\n" || next.text = str "\n" then false
  else
    match positions[currentIndex]?, positions[currentIndex + 1]? with
    | some currentPos, some nextPos =>
      (jsSubstring originalHtml currentPos.2 nextPos.1).any isWs
    | _, _ => analyzeTextPatternSpacing current next originalHtml

/-- `SpacingAnalyzer.isFromTag`: non-default styling on at least one axis
(`fontSize && fontSize !== 14` makes a present-but-zero size falsy). -/
def isFromTag (segment : TextSegment) : Bool :=
  segment.fontWeight = str "bold" ||
  segment.fontStyle = str "italic" ||
  (!segment.color.isEmpty && segment.color ≠ str "#000000") ||
  segment.textDecoration = some (str "underline") ||
  segment.textDecoration = some (str "line-through") ||
  (match segment.fontSize with
   | some f => !(f = 0) && !(f = 14)
   | none => false)

/-- `SpacingAnalyzer.getSpacingContext`. -/
def getSpacingContext (current : TextSegment) (next : Option TextSegment) : Str :=
  let currentIsFromTag := isFromTag current
  let nextIsFromTag := match next with
    | some nx => isFromTag nx
    | none => false
  if currentIsFromTag && next.isSome && nextIsFromTag then str "tag-to-tag"
  else if currentIsFromTag && next.isSome && !nextIsFromTag then str "tag-to-text"
  else if !currentIsFromTag && next.isSome && nextIsFromTag then str "text-to-tag"
  else str "text-to-text"

/-- The per-index body of the `normalizedSegments.map((segment, index) => …)`
in `analyzeAndAssignSpacing`. -/
def spacingAssign (ns : List TextSegment) (cleanedHtml : Str)
    (positions : List (Nat × Nat)) (index : Nat) (segment : TextSegment) :
    TextSegment :=
  if segment.spacingContext = some (str "list-prefix") then
    { segment with hasSpaceAfter := some true, spacingContext := some (str "list-prefix") }
  else if index ≥ ns.length - 1 then
    { segment with
      hasSpaceAfter := some false
      spacingContext := some (getSpacingContext segment none) }
  else
    match ns[index + 1]? with
    | none =>
      { segment with
        hasSpaceAfter := some false
        spacingContext := some (getSpacingContext segment none) }
    | some nextSegment =>
      { segment with
        hasSpaceAfter := some (shouldHaveSpaceBetween segment nextSegment index cleanedHtml positions)
        spacingContext := some (getSpacingContext segment (some nextSegment)) }

/-- Index-passing map, modelling `Array.prototype.map` with the index
argument. -/
def mapIdxGo (f : Nat → TextSegment → TextSegment) :
    List TextSegment → Nat → List TextSegment
  | [], _ => []
  | a :: l, i => f i a :: mapIdxGo f l (i + 1)

/-- `SpacingAnalyzer.analyzeAndAssignSpacing`: normalize, early-return for at
most one segment, then assign `hasSpaceAfter`/`spacingContext` per index
against the whitespace-collapsed copy of the original HTML. -/
def analyzeAndAssignSpacing (segments : List TextSegment) (originalHtml : Str) :
    List TextSegment :=
  let normalizedSegments := normalizeSegmentWhitespace segments
  if normalizedSegments.length ≤ 1 then normalizedSegments
  else
    let cleanedHtml := cleanHtmlWhitespace originalHtml
    let segmentPositions := mapSegmentsToHtmlPositions normalizedSegments cleanedHtml
    mapIdxGo (spacingAssign normalizedSegments cleanedHtml segmentPositions)
      normalizedSegments 0

/-! ## Top-level parse result (`HTMLParser.parseHTML`, src/parser.ts) -/

/-- The return value of `parseHTML`: on the normal path, the scanned
segments run through the spacing analyzer with the structural-validation
errors merged in; when the scan threw (`thrown = some msg`), the catch block
returns one best-effort segment holding the entire original input under the
default style plus a single error entry, discarding everything else. -/
def parseHTMLResult (structuralErrors : List Str) (scanResult : ScanState)
    (html : Str) (thrown : Option Str) : ParseResult :=
  match thrown with
  | some errMsg =>
    { segments := [{ toTextStyle := getDefaultStyle, text := html }]
      errors := [str "Parse error: " ++ errMsg] }
  | none =>
    { segments := analyzeAndAssignSpacing scanResult.segments html
      errors := structuralErrors ++ scanResult.errors }

/-! ## Layout engine (src/layout-engine.ts) -/

/-- The layout options held by `TextLayoutEngine` (font family is cosmetic
and omitted; the wrap width is passed per call). -/
structure LayoutOpts where
  fontSize : ℚ
  startX : ℚ
  startY : ℚ
  lineHeight : ℚ
  deriving DecidableEq, Repr

/-- The constructor defaults: font size 14, start (10, 30), line height
`fontSize × 1.4`. -/
def defaultLayoutOpts : LayoutOpts :=
  { fontSize := 14, startX := 10, startY := 30, lineHeight := 14 * (1.4 : ℚ) }

/-- `LayoutHelpers.shouldWrapLine` (src/helpers/layout.ts) — the same
expression computed inline by `layoutSegments`:
wrap exactly when the segment would exceed the wrap width *and* the cursor
has advanced past the line start. -/
def shouldWrapLine (currentX segmentWidth wrapWidth startX : ℚ) : Bool :=
  decide (currentX + segmentWidth > wrapWidth) && decide (currentX > startX)

/-- `StyleHelpers.isUnstyledSegment`. -/
def isUnstyledSegment (segment : TextSegment) : Bool :=
  let color := lowerStr segment.color
  segment.fontWeight = str "normal" &&
  segment.fontStyle = str "normal" &&
  segment.textDecoration = some (str "none") &&
  (color.isEmpty || color = str "#000000")

/-- `inverseHeadingSizes` from src/constants.ts (the source keys the table by
the decimal string of the size; the numeric comparison is equivalent for the
six exact table values). -/
def inverseHeadingType (size : ℚ) : Option Str :=
  if size = 32 then some (str "h1")
  else if size = 24 then some (str "h2")
  else if size = (18.72 : ℚ) then some (str "h3")
  else if size = 16 then some (str "h4")
  else if size = (13.28 : ℚ) then some (str "h5")
  else if size = (10.72 : ℚ) then some (str "h6")
  else none

/-- `StyleHelpers.isHeadingStyle`: bold with a font size from the heading
table. -/
def isHeadingStyle (segment : TextSegment) : Bool :=
  segment.fontWeight = str "bold" &&
  (match segment.fontSize with
   | some f => (inverseHeadingType f).isSome
   | none => false)

/-- `StyleHelpers.getHeadingType` (a present-but-zero font size is falsy). -/
def getHeadingType (segment : TextSegment) : Option Str :=
  match segment.fontSize with
  | some f => if f = 0 then none else inverseHeadingType f
  | none => none

/-- `TextLayoutEngine.hasSharedParentStyling` (src/layout-engine.ts):
shared non-default font weight, color, or font size. -/
def hasSharedParentStyling (current next : TextSegment) : Bool :=
  let cw := if current.fontWeight = [] then str "normal" else current.fontWeight
  let nw := if next.fontWeight = [] then str "normal" else next.fontWeight
  let cc := if current.color = [] then str "#000000" else current.color
  let nc := if next.color = [] then str "#000000" else next.color
  let cf : ℚ := match current.fontSize with
    | some f => if f = 0 then 14 else f
    | none => 14
  let nf : ℚ := match next.fontSize with
    | some f => if f = 0 then 14 else f
    | none => 14
  (cw = nw && cw ≠ str "normal") ||
  (cc = nc && cc ≠ str "#000000") ||
  (cf = nf && cf ≠ 14)

/-- The inline list-indentation computation of `layoutSegments`
(`20 + (listNestingLevel − 1) × 20` when `isListItem && listNestingLevel`
are truthy, else 0). -/
def layoutIndentation (segment : TextSegment) : ℚ :=
  match segment.isListItem, segment.listNestingLevel with
  | some true, some lvl => if lvl = 0 then 0 else 20 + (lvl - 1) * 20
  | _, _ => 0

/-- The pre-placement wrap step of `layoutSegments` (lines computing
`segmentLineHeight`, `shouldWrapSegment` and the conditional cursor reset):
the cursor a segment is placed from, before any word wrapping. -/
def prePlacementCursor (opts : LayoutOpts) (wrapWidth : ℚ) (m : TextMeasurement)
    (currentX currentY : ℚ) : ℚ × ℚ :=
  let segmentLineHeight := max opts.lineHeight m.height
  if shouldWrapLine currentX m.width wrapWidth opts.startX then
    (opts.startX, currentY + segmentLineHeight)
  else (currentX, currentY)

/-- The context-adjusted inter-segment space width of the non-word-wrapped
branch of `layoutSegments`. -/
def resolvedSpaceWidth (measure : Str → TextSegment → TextMeasurement)
    (segment : TextSegment) (nextSegment : Option TextSegment) : ℚ :=
  let spaceWidth := (measure (str " ") segment).width
  if segment.spacingContext = some (str "text-to-tag") then max spaceWidth 8
  else if segment.spacingContext = some (str "tag-to-tag") then
    match nextSegment with
    | some nx =>
      if hasSharedParentStyling segment nx then min spaceWidth 5 else max spaceWidth 7
    | none => max spaceWidth 7
  else if segment.spacingContext = some (str "tag-to-text") then min spaceWidth 6
  else if segment.spacingContext = some (str "list-prefix") then 5
  else spaceWidth

/-- One iteration of the `layoutSegments` loop for a non-newline segment that
does not enter the word-wrap branch: measure, the pre-placement wrap check,
the (re-computed) `hasWrapped` flag, indentation and unstyled offset, box
emission, and the cursor advance including `hasSpaceAfter` spacing.  Returns
the emitted box and the updated cursor. -/
def layoutStepSimple (measure : Str → TextSegment → TextMeasurement)
    (opts : LayoutOpts) (wrapWidth : ℚ) (segment : TextSegment)
    (nextSegment : Option TextSegment) (currentX currentY : ℚ) :
    PositionedTextSegment × ℚ × ℚ :=
  let m := measure segment.text segment
  let segmentLineHeight := max opts.lineHeight m.height
  let c1 := prePlacementCursor opts wrapWidth m currentX currentY
  let hasWrapped := decide (c1.1 > opts.startX) && decide (c1.1 + m.width > wrapWidth)
  let c2 := if hasWrapped then (opts.startX, c1.2 + segmentLineHeight) else c1
  let isUnstyled := isUnstyledSegment segment
  let indentationX := layoutIndentation segment
  let offsetX : ℚ :=
    if isUnstyled && !(segment.isListItem = some true) && !hasWrapped then 2 else 0
  let totalOffsetX := offsetX + indentationX
  let box : PositionedTextSegment :=
    { toTextSegment := segment
      x := c2.1 + totalOffsetX
      y := c2.2 + (segmentLineHeight - m.height) + (segment.verticalOffset.getD 0)
      width := m.width
      height := m.height }
  let x' := c2.1 + m.width
  let x'' :=
    if segment.hasSpaceAfter = some true then
      x' + resolvedSpaceWidth measure segment nextSegment
    else x'
  (box, x'', c2.2)

/-! ## Supporting lemmas: association lists -/

theorem alGet_alSet {α : Type} (m : List (Str × α)) (k : Str) (v : α) :
    alGet (alSet m k v) k = some v := by
  unfold alGet alSet
  by_cases h : m.any (fun p => p.1 = k)
  · simp only [h, if_true]
    induction m with
    | nil => simp at h
    | cons a t ih =>
      by_cases ha : a.1 = k
      · rw [List.map_cons, if_pos ha, List.find?_cons_of_pos _ (by simp)]
        rfl
      · have h' : t.any (fun p => p.1 = k) = true := by
          simp only [List.any_cons, Bool.or_eq_true, decide_eq_true_eq] at h
          rcases h with h | h
          · exact absurd h ha
          · exact h
        rw [List.map_cons, if_neg ha, List.find?_cons_of_neg _ (by simp [ha])]
        exact ih h'
  · rw [if_neg h]
    have hnone : List.find? (fun p => decide (p.1 = k)) m = none := by
      rw [List.find?_eq_none]
      intro x hx
      simp only [List.any_eq_true] at h
      push_neg at h
      simpa using h x hx
    rw [List.find?_append, hnone]
    simp [List.find?_cons_of_pos]

theorem alGet_alDel {α : Type} (m : List (Str × α)) (k : Str) :
    alGet (alDel m k) k = none := by
  unfold alGet alDel
  induction m with
  | nil => rfl
  | cons a t ih =>
    by_cases ha : a.1 = k
    · rw [List.filter_cons, if_neg (by simp [ha])]
      exact ih
    · rw [List.filter_cons, if_pos (by simp [ha]), List.find?_cons_of_neg _ (by simp [ha])]
      exact ih

/-! ## Supporting lemmas: the scan preserves a nonempty style stack -/

theorem handleText_styleStack (txt : Str) (st : ScanState) :
    (handleText txt st).styleStack = st.styleStack := by
  unfold handleText
  split <;> rfl

theorem handleText_currentStyle (txt : Str) (st : ScanState) :
    (handleText txt st).currentStyle = st.currentStyle := by
  unfold handleText
  split <;> rfl

theorem handleOpen_styleStack_shape (env : JsEnv) (c : Chunk) (rest : List Chunk)
    (i : Nat) (st : ScanState) :
    (handleOpen env c rest i st).styleStack = st.styleStack ∨
      ∃ sty, (handleOpen env c rest i st).styleStack = st.styleStack ++ [sty] := by
  cases hs : getStrategy (lowerStr c.name) with
  | none => left; simp [handleOpen, hs]
  | some strat =>
    simp only [handleOpen, hs]
    split
    · right; exact ⟨_, rfl⟩
    · left; rfl

theorem handleClose_styleStack_shape (env : JsEnv) (c : Chunk) (rest : List Chunk)
    (i : Nat) (st : ScanState) :
    (handleClose env c rest i st).styleStack = st.styleStack ∨
      ((handleClose env c rest i st).styleStack = st.styleStack.dropLast ∧
        1 < st.styleStack.length) := by
  cases hs : getStrategy (lowerStr c.name) with
  | none => left; simp [handleClose, hs]
  | some strat =>
    simp only [handleClose, hs]
    split
    · next hcond =>
      right
      rw [Bool.and_eq_true] at hcond
      refine ⟨?_, by simpa using hcond.2⟩
      split <;> rfl
    · left; rfl

theorem handleOpen_styleStack_nonempty (env : JsEnv) (c : Chunk) (rest : List Chunk)
    (i : Nat) (st : ScanState) (h : st.styleStack ≠ []) :
    (handleOpen env c rest i st).styleStack ≠ [] := by
  rcases handleOpen_styleStack_shape env c rest i st with hsh | ⟨sty, hsh⟩ <;>
    simp [hsh, h]

theorem handleClose_styleStack_nonempty (env : JsEnv) (c : Chunk) (rest : List Chunk)
    (i : Nat) (st : ScanState) (h : st.styleStack ≠ []) :
    (handleClose env c rest i st).styleStack ≠ [] := by
  rcases handleClose_styleStack_shape env c rest i st with hsh | ⟨hsh, hlen⟩
  · simp [hsh, h]
  · rw [hsh]
    have : st.styleStack.dropLast.length = st.styleStack.length - 1 :=
      List.length_dropLast _
    intro hnil
    rw [hnil] at this
    simp at this
    omega

theorem scanStep_styleStack_nonempty (env : JsEnv) (c : Chunk) (rest : List Chunk)
    (i : Nat) (st : ScanState) (h : st.styleStack ≠ []) :
    (scanStep env c rest i st).styleStack ≠ [] := by
  unfold scanStep
  split
  · split
    · exact handleClose_styleStack_nonempty env c rest i st h
    · exact h
  · split
    · exact handleOpen_styleStack_nonempty env c rest i st h
    · exact h

theorem scanChunks_styleStack_nonempty (env : JsEnv) (cs : List Chunk) :
    ∀ (i : Nat) (st : ScanState), st.styleStack ≠ [] →
      (scanChunks env cs i st).styleStack ≠ [] := by
  induction cs with
  | nil => intro i st h; simpa [scanChunks] using h
  | cons c rest ih =>
    intro i st h
    simp only [scanChunks]
    apply ih
    rw [handleText_styleStack]
    exact scanStep_styleStack_nonempty env c rest i st h

/-! ## Supporting lemmas: the runtime oracle only matters to hyperlinks -/

theorem strategyParse_env_indep (env env' : JsEnv) (strat : Strategy)
    (context : ParseContext) (comp : CompositeState) (h : strat ≠ .hyperlink) :
    strategyParse env strat context comp = strategyParse env' strat context comp := by
  cases strat <;> first | rfl | exact absurd rfl h

theorem handleOpen_env_indep (env env' : JsEnv) (c : Chunk) (rest : List Chunk)
    (i : Nat) (st : ScanState) (h : ¬ getStrategy (lowerStr c.name) = some .hyperlink) :
    handleOpen env c rest i st = handleOpen env' c rest i st := by
  cases hs : getStrategy (lowerStr c.name) with
  | none => simp [handleOpen, hs]
  | some strat =>
    have hne : strat ≠ .hyperlink := by
      intro he; rw [he] at hs; exact h hs
    simp only [handleOpen, hs]
    rw [strategyParse_env_indep env env' strat _ st.comp hne]

theorem handleClose_env_indep (env env' : JsEnv) (c : Chunk) (rest : List Chunk)
    (i : Nat) (st : ScanState) (h : ¬ getStrategy (lowerStr c.name) = some .hyperlink) :
    handleClose env c rest i st = handleClose env' c rest i st := by
  cases hs : getStrategy (lowerStr c.name) with
  | none => simp [handleClose, hs]
  | some strat =>
    have hne : strat ≠ .hyperlink := by
      intro he; rw [he] at hs; exact h hs
    simp only [handleClose, hs]
    rw [strategyParse_env_indep env env' strat _ st.comp hne]

theorem scanStep_env_indep (env env' : JsEnv) (c : Chunk) (rest : List Chunk)
    (i : Nat) (st : ScanState) (h : ¬ getStrategy (lowerStr c.name) = some .hyperlink) :
    scanStep env c rest i st = scanStep env' c rest i st := by
  unfold scanStep
  split
  · split
    · exact handleClose_env_indep env env' c rest i st h
    · rfl
  · split
    · exact handleOpen_env_indep env env' c rest i st h
    · rfl

theorem scanChunks_env_indep (env env' : JsEnv) (cs : List Chunk)
    (h : noHyperlink cs = true) :
    ∀ (i : Nat) (st : ScanState), scanChunks env cs i st = scanChunks env' cs i st := by
  induction cs with
  | nil => intro i st; rfl
  | cons c rest ih =>
    intro i st
    simp only [noHyperlink, List.all_cons, Bool.and_eq_true, decide_eq_true_eq] at h
    simp only [scanChunks]
    rw [scanStep_env_indep env env' c rest i st h.1]
    exact ih (by simpa [noHyperlink] using h.2) _ _

theorem scanHTML_env_indep (env env' : JsEnv) (t0 : Str) (cs : List Chunk)
    (h : noHyperlink cs = true) : scanHTML env t0 cs = scanHTML env' t0 cs := by
  unfold scanHTML
  exact scanChunks_env_indep env env' cs h 1 _

/-! ## Supporting lemmas: push/pop requests are determined by the tag name -/

theorem tagPushes_of_getStrategy {n : Str} {strat : Strategy}
    (h : getStrategy n = some strat) :
    tagPushes n = (match strat with
      | .lineBreak => false
      | .listFam =>
        lowerStr n = str "ul" || lowerStr n = str "ol" || lowerStr n = str "li"
      | _ => true) := by
  cases strat <;> simp [tagPushes, h]

theorem strategyParse_open_pushFlag (env : JsEnv) (strat : Strategy)
    (context : ParseContext) (comp : CompositeState)
    (hopen : context.isClosingTag = false)
    (h : getStrategy context.tagName = some strat) :
    (strategyParse env strat context comp).1.pushStyleToStack =
      tagPushes context.tagName := by
  rw [tagPushes_of_getStrategy h]
  cases strat
  case bold => simp [strategyParse, defaultParse, hopen]
  case italic => simp [strategyParse, defaultParse, hopen]
  case underline => simp [strategyParse, defaultParse, hopen]
  case span => simp [strategyParse, defaultParse, hopen]
  case heading => simp [strategyParse, headingParse, hopen]
  case paragraph => simp [strategyParse, paragraphParse, hopen]
  case hyperlink => simp [strategyParse, defaultParse, hopen]
  case lineBreak => simp [strategyParse, lineBreakParse, hopen]
  case code => simp [strategyParse, defaultParse, hopen]
  case smallText => simp [strategyParse, defaultParse, hopen]
  case highlight => simp [strategyParse, defaultParse, hopen]
  case strikethrough => simp [strategyParse, defaultParse, hopen]
  case listFam =>
    by_cases h1 : lowerStr context.tagName = str "ul"
    · simp [strategyParse, listCompositeParse, h1, listContainerParse, hopen]
    · by_cases h2 : lowerStr context.tagName = str "ol"
      · simp only [strategyParse, listCompositeParse, h1, h2]
        rw [if_neg (by decide), if_pos (by decide)]
        simp [listContainerParse, hopen]
      · by_cases h3 : lowerStr context.tagName = str "li"
        · simp only [strategyParse, listCompositeParse, h1, h2, h3]
          rw [if_neg (by decide), if_neg (by decide), if_pos (by decide)]
          simp [listItemParse, hopen]
        · simp [strategyParse, listCompositeParse, h1, h2, h3]

theorem strategyParse_close_popFlag (env : JsEnv) (strat : Strategy)
    (context : ParseContext) (comp : CompositeState)
    (hclose : context.isClosingTag = true)
    (h : getStrategy context.tagName = some strat) :
    (strategyParse env strat context comp).1.popFromStyleStack =
      tagPushes context.tagName := by
  rw [tagPushes_of_getStrategy h]
  cases strat
  case bold => simp [strategyParse, defaultParse, hclose]
  case italic => simp [strategyParse, defaultParse, hclose]
  case underline => simp [strategyParse, defaultParse, hclose]
  case span => simp [strategyParse, defaultParse, hclose]
  case heading => simp [strategyParse, headingParse, hclose]
  case paragraph => simp [strategyParse, paragraphParse, hclose]
  case hyperlink => simp [strategyParse, defaultParse, hclose]
  case lineBreak => simp [strategyParse, lineBreakParse, hclose]
  case code => simp [strategyParse, defaultParse, hclose]
  case smallText => simp [strategyParse, defaultParse, hclose]
  case highlight => simp [strategyParse, defaultParse, hclose]
  case strikethrough => simp [strategyParse, defaultParse, hclose]
  case listFam =>
    by_cases h1 : lowerStr context.tagName = str "ul"
    · simp [strategyParse, listCompositeParse, h1, listContainerParse, hclose]
    · by_cases h2 : lowerStr context.tagName = str "ol"
      · simp only [strategyParse, listCompositeParse, h1, h2]
        rw [if_neg (by decide), if_pos (by decide)]
        simp [listContainerParse, hclose]
      · by_cases h3 : lowerStr context.tagName = str "li"
        · simp only [strategyParse, listCompositeParse, h1, h2, h3]
          rw [if_neg (by decide), if_neg (by decide), if_pos (by decide)]
          simp [listItemParse, hclose]
        · simp [strategyParse, listCompositeParse, h1, h2, h3]

theorem handleOpen_styleStack_length (env : JsEnv) (c : Chunk) (rest : List Chunk)
    (i : Nat) (st : ScanState) :
    (handleOpen env c rest i st).styleStack.length =
      st.styleStack.length + (if tagPushes (lowerStr c.name) then 1 else 0) := by
  cases hs : getStrategy (lowerStr c.name) with
  | none =>
    have ht : tagPushes (lowerStr c.name) = false := by
      unfold tagPushes; rw [hs]
    simp [handleOpen, hs, ht]
  | some strat =>
    simp only [handleOpen, hs]
    rw [strategyParse_open_pushFlag env strat _ st.comp rfl hs]
    dsimp only
    by_cases hb : tagPushes (lowerStr c.name) = true
    · simp [hb]
    · simp only [Bool.not_eq_true] at hb
      simp [hb]

theorem handleClose_styleStack_length (env : JsEnv) (c : Chunk) (rest : List Chunk)
    (i : Nat) (st : ScanState) :
    (handleClose env c rest i st).styleStack.length =
      (if tagPushes (lowerStr c.name) = true ∧ 1 < st.styleStack.length then
        st.styleStack.length - 1 else st.styleStack.length) := by
  cases hs : getStrategy (lowerStr c.name) with
  | none =>
    have ht : tagPushes (lowerStr c.name) = false := by
      unfold tagPushes; rw [hs]
    simp [handleClose, hs, ht]
  | some strat =>
    simp only [handleClose, hs]
    rw [strategyParse_close_popFlag env strat _ st.comp rfl hs]
    dsimp only
    by_cases hb : tagPushes (lowerStr c.name) = true
    · by_cases hl : 1 < st.styleStack.length
      · have hcond : (tagPushes (lowerStr c.name) &&
            decide (st.styleStack.length > 1)) = true := by
          simp [hb, hl]
        rw [if_pos hcond, if_pos ⟨hb, hl⟩]
        split <;> simp [List.length_dropLast]
      · have hcond : ¬ ((tagPushes (lowerStr c.name) &&
            decide (st.styleStack.length > 1)) = true) := by
          simp [hb, hl]
        rw [if_neg hcond, if_neg (by intro hc; exact hl hc.2)]
    · simp only [Bool.not_eq_true] at hb
      have hcond : ¬ ((tagPushes (lowerStr c.name) &&
          decide (st.styleStack.length > 1)) = true) := by
        simp [hb]
      rw [if_neg hcond, if_neg (by intro hc; rw [hb] at hc; exact Bool.false_ne_true hc.1)]

/-! ## Supporting lemmas: relating chunk events to the scan step -/

theorem scanStep_of_event_none (env : JsEnv) (c : Chunk) (rest : List Chunk)
    (i : Nat) (st : ScanState) (hev : chunkEvent c = none) :
    scanStep env c rest i st = st := by
  unfold scanStep
  by_cases h1 : c.slash = str "/" <;> by_cases h2 : c.name = [] <;>
    simp [chunkEvent, h1, h2] at hev ⊢

theorem scanStep_of_event_open (env : JsEnv) (c : Chunk) (rest : List Chunk)
    (i : Nat) (st : ScanState) {n : Str} (hev : chunkEvent c = some (false, n)) :
    scanStep env c rest i st = handleOpen env c rest i st ∧ n = lowerStr c.name := by
  unfold scanStep
  by_cases h1 : c.slash = str "/" <;> by_cases h2 : c.name = [] <;>
    simp [chunkEvent, h1, h2] at hev ⊢
  exact hev.symm

theorem scanStep_of_event_close (env : JsEnv) (c : Chunk) (rest : List Chunk)
    (i : Nat) (st : ScanState) {n : Str} (hev : chunkEvent c = some (true, n)) :
    scanStep env c rest i st = handleClose env c rest i st ∧ n = lowerStr c.name := by
  unfold scanStep
  by_cases h1 : c.slash = str "/" <;> by_cases h2 : c.name = [] <;>
    simp [chunkEvent, h1, h2] at hev ⊢
  exact hev.symm

/-! ## Supporting lemmas: stack balance over well-formed inputs -/

theorem scanChunks_balance (env : JsEnv) :
    ∀ (cs : List Chunk) (i : Nat) (st : ScanState) (opens : List Str),
      dyckRun (tagEvents cs) opens = some [] →
      st.styleStack.length = 1 + pushWeight opens →
      (scanChunks env cs i st).styleStack.length = 1 := by
  intro cs
  induction cs with
  | nil =>
    intro i st opens hd hlen
    have hop : opens = [] := by simpa [tagEvents, dyckRun] using hd
    subst hop
    simpa [scanChunks, pushWeight] using hlen
  | cons c rest ih =>
    intro i st opens hd hlen
    simp only [scanChunks]
    cases hev : chunkEvent c with
    | none =>
      have htE : tagEvents (c :: rest) = tagEvents rest := by
        simp [tagEvents, List.filterMap_cons, hev]
      rw [htE] at hd
      apply ih (i + 4) _ opens hd
      rw [handleText_styleStack, scanStep_of_event_none env c rest i st hev]
      exact hlen
    | some ev =>
      obtain ⟨b, n⟩ := ev
      have htE : tagEvents (c :: rest) = (b, n) :: tagEvents rest := by
        simp [tagEvents, List.filterMap_cons, hev]
      rw [htE] at hd
      cases b with
      | false =>
        obtain ⟨hstep, hn⟩ := scanStep_of_event_open env c rest i st hev
        have hd' : dyckRun (tagEvents rest) (n :: opens) = some [] := hd
        apply ih (i + 4) _ (n :: opens) hd'
        rw [handleText_styleStack, hstep, handleOpen_styleStack_length, ← hn, hlen]
        simp only [pushWeight, List.filter_cons]
        by_cases htp : tagPushes n = true
        · simp [htp]
          omega
        · simp only [Bool.not_eq_true] at htp
          simp [htp]
      | true =>
        cases opens with
        | nil => simp [dyckRun] at hd
        | cons m opens' =>
          have hsplit : m = n ∧ dyckRun (tagEvents rest) opens' = some [] := by
            by_cases hmn : m = n
            · refine ⟨hmn, ?_⟩
              have heq : dyckRun ((true, n) :: tagEvents rest) (m :: opens') =
                  dyckRun (tagEvents rest) opens' := by
                simp [dyckRun, hmn]
              rw [heq] at hd
              exact hd
            · exfalso
              simp [dyckRun, hmn] at hd
          obtain ⟨hm, hd'⟩ := hsplit
          subst hm
          obtain ⟨hstep, hn⟩ := scanStep_of_event_close env c rest i st hev
          apply ih (i + 4) _ opens' hd'
          rw [handleText_styleStack, hstep, handleClose_styleStack_length, ← hn]
          by_cases htp : tagPushes m = true
          · have hlen2 : st.styleStack.length = pushWeight opens' + 2 := by
              simp [pushWeight, List.filter_cons, htp] at hlen
              simp only [pushWeight]
              omega
            rw [if_pos ⟨htp, by omega⟩]
            omega
          · have hlen2 : st.styleStack.length = pushWeight opens' + 1 := by
              simp only [Bool.not_eq_true] at htp
              simp [pushWeight, List.filter_cons, htp] at hlen
              simp only [pushWeight]
              omega
            rw [if_neg (fun hc => htp hc.1)]
            omega

/-! ## Supporting lemmas: the scan preserves the bottom (default) stack entry -/

theorem handleOpen_styleStack_head (env : JsEnv) (c : Chunk) (rest : List Chunk)
    (i : Nat) (st : ScanState) (h : st.styleStack ≠ []) :
    (handleOpen env c rest i st).styleStack.head? = st.styleStack.head? := by
  rcases handleOpen_styleStack_shape env c rest i st with hsh | ⟨sty, hsh⟩
  · rw [hsh]
  · rw [hsh]
    cases hcs : st.styleStack with
    | nil => exact absurd hcs h
    | cons a t => simp

theorem handleClose_styleStack_head (env : JsEnv) (c : Chunk) (rest : List Chunk)
    (i : Nat) (st : ScanState) (h : st.styleStack ≠ []) :
    (handleClose env c rest i st).styleStack.head? = st.styleStack.head? := by
  rcases handleClose_styleStack_shape env c rest i st with hsh | ⟨hsh, hlen⟩
  · rw [hsh]
  · rw [hsh]
    cases hcs : st.styleStack with
    | nil => exact absurd hcs h
    | cons a t =>
      cases t with
      | nil => rw [hcs] at hlen; simp at hlen
      | cons b t2 => simp [List.dropLast]

theorem scanStep_styleStack_head (env : JsEnv) (c : Chunk) (rest : List Chunk)
    (i : Nat) (st : ScanState) (h : st.styleStack ≠ []) :
    (scanStep env c rest i st).styleStack.head? = st.styleStack.head? := by
  unfold scanStep
  split
  · split
    · exact handleClose_styleStack_head env c rest i st h
    · rfl
  · split
    · exact handleOpen_styleStack_head env c rest i st h
    · rfl

theorem scanChunks_styleStack_head (env : JsEnv) (cs : List Chunk) :
    ∀ (i : Nat) (st : ScanState), st.styleStack ≠ [] →
      (scanChunks env cs i st).styleStack.head? = st.styleStack.head? := by
  induction cs with
  | nil => intro i st _; rfl
  | cons c rest ih =>
    intro i st h
    simp only [scanChunks]
    have h1 : (scanStep env c rest i st).styleStack ≠ [] :=
      scanStep_styleStack_nonempty env c rest i st h
    have h2 : (handleText c.text (scanStep env c rest i st)).styleStack ≠ [] := by
      rw [handleText_styleStack]; exact h1
    rw [ih (i + 4) _ h2, handleText_styleStack,
      scanStep_styleStack_head env c rest i st h]

/-! ## Claim C4: the two indentation computations agree -/

/-- C4.  For every nesting level `L ≥ 1` the list indentation computed by
`ListHelpers.calculateListIndentation(L)` equals the indentation computed
inline by `TextLayoutEngine.layoutSegments` for a list-item segment at level
`L`, namely `20 + (L − 1) × 20` pixels; for a non-list segment the layout
indentation is 0. -/
theorem claim_C4_indentation_agreement :
    ∀ (L : ℚ) (seg : TextSegment), 1 ≤ L → seg.isListItem = some true →
      seg.listNestingLevel = some L →
      (calculateListIndentation L = layoutIndentation seg ∧
       calculateListIndentation L = 20 + (L - 1) * 20 ∧
       layoutIndentation seg = 20 + (L - 1) * 20) ∧
      ∀ s2 : TextSegment, (s2.isListItem = none ∨ s2.isListItem = some false) →
        layoutIndentation s2 = 0 := by
  intro L seg hL hItem hLvl
  have hL0 : ¬ L ≤ 0 := by linarith
  have hLne : ¬ L = 0 := by intro h; rw [h] at hL; linarith
  constructor
  · unfold calculateListIndentation layoutIndentation
    rw [hItem, hLvl]
    simp [hL0, hLne]
  · intro s2 h2
    unfold layoutIndentation
    rcases h2 with h2 | h2 <;> rw [h2]

/-- Witness for C4 at levels 1, 2 and 3 (values 20, 40, 60). -/
theorem claim_C4_indentation_agreement_witness :
    calculateListIndentation 1 = 20 ∧ calculateListIndentation 2 = 40 ∧
      calculateListIndentation 3 = 60 ∧
      layoutIndentation
        { toTextStyle := { getDefaultStyle with isListItem := some true, listNestingLevel := some 2 }
          text := str "x" } = 40 := by
  have h2 := claim_C4_indentation_agreement 2
    { toTextStyle := { getDefaultStyle with isListItem := some true, listNestingLevel := some 2 }
      text := str "x" } (by norm_num) rfl rfl
  refine ⟨?_, ?_, ?_, ?_⟩
  · norm_num [calculateListIndentation]
  · have := h2.1.2.1
    rw [this]; norm_num
  · norm_num [calculateListIndentation]
  · have := h2.1.2.2
    rw [this]; norm_num

/-! ## Claim C5: the wrap-trigger boundary -/

/-- C5.  In the layout engine, a segment whose placement begins at cursor
`x = startX` is never relocated to a new line before placement, regardless
of its measured width; a segment whose placement begins at `x > startX` is
relocated exactly when `x + measuredWidth > wrapWidth`.  Stated for
`LayoutHelpers.shouldWrapLine` (the wrap predicate), for the pre-placement
cursor step of `layoutSegments`, and for the box actually emitted by the
non-word-wrapped placement step. -/
theorem claim_C5_wrap_trigger_boundary :
    (∀ cx w ww sx : ℚ, shouldWrapLine cx w ww sx = true ↔ (cx + w > ww ∧ cx > sx)) ∧
    (∀ (opts : LayoutOpts) (ww : ℚ) (m : TextMeasurement) (cx cy : ℚ),
       cx = opts.startX → prePlacementCursor opts ww m cx cy = (cx, cy)) ∧
    (∀ (opts : LayoutOpts) (ww : ℚ) (m : TextMeasurement) (cx cy : ℚ),
       cx > opts.startX →
         prePlacementCursor opts ww m cx cy =
           (if cx + m.width > ww then (opts.startX, cy + max opts.lineHeight m.height)
            else (cx, cy))) ∧
    (∀ (measure : Str → TextSegment → TextMeasurement) (opts : LayoutOpts) (ww : ℚ)
       (seg : TextSegment) (next : Option TextSegment) (cx cy : ℚ),
       cx = opts.startX →
         (layoutStepSimple measure opts ww seg next cx cy).1.y =
           cy + (max opts.lineHeight (measure seg.text seg).height -
                 (measure seg.text seg).height) + seg.verticalOffset.getD 0) ∧
    (∀ (measure : Str → TextSegment → TextMeasurement) (opts : LayoutOpts) (ww : ℚ)
       (seg : TextSegment) (next : Option TextSegment) (cx cy : ℚ),
       cx > opts.startX →
         (layoutStepSimple measure opts ww seg next cx cy).1.y =
           (if cx + (measure seg.text seg).width > ww then
              cy + max opts.lineHeight (measure seg.text seg).height
            else cy) +
           (max opts.lineHeight (measure seg.text seg).height -
            (measure seg.text seg).height) + seg.verticalOffset.getD 0) := by
  have hwrap : ∀ cx w ww sx : ℚ, shouldWrapLine cx w ww sx = true ↔ (cx + w > ww ∧ cx > sx) := by
    intro cx w ww sx
    unfold shouldWrapLine
    simp
  have hpre1 : ∀ (opts : LayoutOpts) (ww : ℚ) (m : TextMeasurement) (cx cy : ℚ),
      cx = opts.startX → prePlacementCursor opts ww m cx cy = (cx, cy) := by
    intro opts ww m cx cy h
    unfold prePlacementCursor shouldWrapLine
    subst h
    simp
  have hpre2 : ∀ (opts : LayoutOpts) (ww : ℚ) (m : TextMeasurement) (cx cy : ℚ),
      cx > opts.startX →
        prePlacementCursor opts ww m cx cy =
          (if cx + m.width > ww then (opts.startX, cy + max opts.lineHeight m.height)
           else (cx, cy)) := by
    intro opts ww m cx cy h
    unfold prePlacementCursor shouldWrapLine
    by_cases hw : cx + m.width > ww
    · simp [hw, h]
    · simp [hw]
  refine ⟨hwrap, hpre1, hpre2, ?_, ?_⟩
  · intro measure opts ww seg next cx cy h
    subst h
    simp only [layoutStepSimple, prePlacementCursor, shouldWrapLine]
    simp [lt_irrefl]
  · intro measure opts ww seg next cx cy h
    simp only [layoutStepSimple, prePlacementCursor, shouldWrapLine]
    by_cases hw : cx + (measure seg.text seg).width > ww
    · simp [hw, h, lt_irrefl]
    · simp [hw, h, lt_irrefl]

/-- Witness for C5 at concrete numbers (start 10, wrap width 100,
a 95-wide measurement at the line start is not relocated; at `x = 20` it is). -/
theorem claim_C5_wrap_trigger_boundary_witness :
    prePlacementCursor defaultLayoutOpts 100 ⟨95, 14⟩ 10 30 = (10, 30) ∧
    prePlacementCursor defaultLayoutOpts 100 ⟨95, 14⟩ 20 30 =
      (10, 30 + max defaultLayoutOpts.lineHeight 14) ∧
    shouldWrapLine 10 95 100 10 = false := by
  refine ⟨?_, ?_, by norm_num [shouldWrapLine]⟩
  · exact claim_C5_wrap_trigger_boundary.2.1 defaultLayoutOpts 100 ⟨95, 14⟩ 10 30 rfl
  · have h := claim_C5_wrap_trigger_boundary.2.2.1 defaultLayoutOpts 100 ⟨95, 14⟩ 20 30
      (by norm_num [defaultLayoutOpts])
    rw [h]
    norm_num [defaultLayoutOpts]

/-! ## Claim C6: the catch-recovery path of parseHTML -/

/-- C6.  When an exception is thrown inside the scan, `parseHTML` returns a
result whose segments array is exactly one segment holding the entire
original input string under the default style, together with a single error
entry; the recovery is a returned value, not a rethrow (the embedding is a
total function of the thrown message). -/
theorem claim_C6_catch_recovery :
    ∀ (structuralErrors : List Str) (scanResult : ScanState) (html errMsg : Str),
      (parseHTMLResult structuralErrors scanResult html (some errMsg)).segments =
        [{ toTextStyle := getDefaultStyle, text := html }] ∧
      (parseHTMLResult structuralErrors scanResult html (some errMsg)).errors =
        [str "Parse error: " ++ errMsg] := by
  intro structuralErrors scanResult html errMsg
  exact ⟨rfl, rfl⟩

/-! ## Claim C8: the small-text style transform -/

/-- Counterexample to C8 as stated: for a style whose `fontSize` is present
with value 0, the claimed base `f = style.fontSize = 0` would give
`fontSize = 0.75 × 0 = 0`, but `applyStyle` (via `fontSize || 14`) returns
`10.5`. -/
theorem claim_C8_smalltext_cex :
    (smallTextApplyStyle { getDefaultStyle with fontSize := some 0 }
        (some (str "sub"))).fontSize = some ((21 : ℚ) / 2) ∧
      ¬ ((21 : ℚ) / 2 = (0.75 : ℚ) * 0) := by
  constructor
  · have h1 : (smallTextApplyStyle { getDefaultStyle with fontSize := some 0 }
        (some (str "sub"))).fontSize =
        some (effectiveSmallTextBase { getDefaultStyle with fontSize := some 0 } * (0.75 : ℚ)) := rfl
    have hbase : effectiveSmallTextBase { getDefaultStyle with fontSize := some 0 } = 14 := rfl
    rw [h1, hbase]
    norm_num
  · norm_num

/-- C8 (amended).  With effective base font size `f` equal to
`style.fontSize` when present and nonzero, otherwise 14,
`SmallTextTagStrategy.applyStyle` returns `fontSize = 0.75 × f` for all of
`sub`, `sup` and `small`; `verticalOffset = +0.15 × f` for `sub`,
`−0.35 × f` for `sup`; and for `small` the vertical offset is left unchanged
while the color becomes `#6c757d`. -/
theorem claim_C8_smalltext_amended :
    ∀ style : TextStyle,
      (smallTextApplyStyle style (some (str "sub"))).fontSize =
        some (effectiveSmallTextBase style * (0.75 : ℚ)) ∧
      (smallTextApplyStyle style (some (str "sub"))).verticalOffset =
        some (effectiveSmallTextBase style * (0.15 : ℚ)) ∧
      (smallTextApplyStyle style (some (str "sup"))).fontSize =
        some (effectiveSmallTextBase style * (0.75 : ℚ)) ∧
      (smallTextApplyStyle style (some (str "sup"))).verticalOffset =
        some (-(effectiveSmallTextBase style * (0.35 : ℚ))) ∧
      (smallTextApplyStyle style (some (str "small"))).fontSize =
        some (effectiveSmallTextBase style * (0.75 : ℚ)) ∧
      (smallTextApplyStyle style (some (str "small"))).verticalOffset =
        style.verticalOffset ∧
      (smallTextApplyStyle style (some (str "small"))).color = str "#6c757d" := by
  intro style
  exact ⟨rfl, rfl, rfl, rfl, rfl, rfl, rfl⟩

/-! ## Claim C3: list counters are depth-scoped and deleted on close -/

/-- C3.  Ordered-list counters are scoped to (family, tag type, nesting
depth) and the counter key is deleted when its list closes: scanning
`<ol><li>a</li></ol><ol><li>b</li></ol>` yields the prefix `1. ` for both
list items, scanning `<ol><li><ol><li>x</li></ol></li></ol>` yields prefix
`1. ` for both the outer and the inner item, and popping a family entry with
counter cleanup removes the counter key scoped to the popped type at the
popped depth. -/
theorem claim_C3_list_counter_scoping :
    ∀ env : JsEnv,
      (((scanHTML env []
          [⟨[], str "ol", [], []⟩, ⟨[], str "li", [], str "a"⟩, ⟨str "/", str "li", [], []⟩,
           ⟨str "/", str "ol", [], []⟩, ⟨[], str "ol", [], []⟩, ⟨[], str "li", [], str "b"⟩,
           ⟨str "/", str "li", [], []⟩, ⟨str "/", str "ol", [], []⟩]).segments.filter
            (fun s => s.spacingContext = some (str "list-prefix"))).map (fun s => s.text)) =
        [str "1. ", str "1. "] ∧
      (((scanHTML env []
          [⟨[], str "ol", [], []⟩, ⟨[], str "li", [], []⟩, ⟨[], str "ol", [], []⟩,
           ⟨[], str "li", [], str "x"⟩, ⟨str "/", str "li", [], []⟩, ⟨str "/", str "ol", [], []⟩,
           ⟨str "/", str "li", [], []⟩, ⟨str "/", str "ol", [], []⟩]).segments.filter
            (fun s => s.spacingContext = some (str "list-prefix"))).map (fun s => s.text)) =
        [str "1. ", str "1. "] ∧
      (∀ (comp : CompositeState) (family : Str) (stack : List Str) (t : Str)
         (famCounters : List (Str × Nat)),
         alGet comp.stacksMap family = some stack → stack.getLast? = some t →
         alGet comp.counters family = some famCounters →
         alGet ((alGet (popFromStack comp family true).1.counters family).getD [])
             (generateCounterKey family t stack.length) = none) := by
  intro env
  refine ⟨?_, ?_, ?_⟩
  · rw [scanHTML_env_indep env defaultEnv [] _ (by decide)]
    decide
  · rw [scanHTML_env_indep env defaultEnv [] _ (by decide)]
    decide
  · intro comp family stack t famCounters hstack hlast hcnt
    have hne : stack ≠ [] := by
      intro h; rw [h] at hlast; simp at hlast
    have hlen : stack.dropLast.length + 1 = stack.length := by
      rw [List.length_dropLast]
      have := List.length_pos.mpr hne
      omega
    unfold popFromStack
    rw [hstack]
    simp only [hlast, hcnt, if_true]
    rw [alGet_alSet]
    simp only [Option.getD_some]
    rw [hlen]
    exact alGet_alDel famCounters _

/-- Witness for C3: the quantified parts of the statement applied at a
concrete runtime instance and a concrete composite state holding an `ol`
counter at depth 1. -/
theorem claim_C3_list_counter_scoping_witness :
    alGet ((alGet (popFromStack
          ⟨[(str "list", [(str "list-ol-1", 5)])], [(str "list", [str "ol"])]⟩
          (str "list") true).1.counters (str "list")).getD [])
        (generateCounterKey (str "list") (str "ol") 1) = none := by
  have h := (claim_C3_list_counter_scoping defaultEnv).2.2
    ⟨[(str "list", [(str "list-ol-1", 5)])], [(str "list", [str "ol"])]⟩
    (str "list") [str "ol"] (str "ol") [(str "list-ol-1", 5)]
    (by decide) (by decide) (by decide)
  exact h

/-! ## Supporting lemmas: the index-passing map and its last element -/

theorem mapIdxGo_getLast? (f : Nat → TextSegment → TextSegment) :
    ∀ (l : List TextSegment) (i : Nat) (a : TextSegment), l.getLast? = some a →
      (mapIdxGo f l i).getLast? = some (f (i + (l.length - 1)) a) := by
  intro l
  induction l with
  | nil => intro i a h; simp at h
  | cons x t ih =>
    intro i a h
    cases t with
    | nil =>
      simp only [List.getLast?_singleton, Option.some.injEq] at h
      subst h
      simp [mapIdxGo]
    | cons y t2 =>
      rw [List.getLast?_cons_cons] at h
      have hrec := ih (i + 1) a h
      have hstep : (mapIdxGo f (x :: y :: t2) i).getLast? =
          (mapIdxGo f (y :: t2) (i + 1)).getLast? := by
        rw [show mapIdxGo f (x :: y :: t2) i =
            f i x :: mapIdxGo f (y :: t2) (i + 1) from rfl]
        rw [show mapIdxGo f (y :: t2) (i + 1) =
            f (i + 1) y :: mapIdxGo f t2 (i + 1 + 1) from rfl]
        rw [List.getLast?_cons_cons]
      rw [hstep, hrec]
      have harith : i + 1 + ((y :: t2).length - 1) = i + ((x :: y :: t2).length - 1) := by
        simp only [List.length_cons]
        omega
      rw [harith]

/-! ## Claim C7: hasSpaceAfter of the last segment -/

/-- Counterexample to C7 as stated: a segment sequence whose last segment is
a list prefix gets `hasSpaceAfter = true` from the analyzer (the list-prefix
branch precedes the last-index branch), and in the early-return path (fewer
than two segments) a pre-set `hasSpaceAfter = true` survives unchanged. -/
theorem claim_C7_last_segment_cex :
    (((analyzeAndAssignSpacing
        [{ toTextStyle := getDefaultStyle, text := str "a" },
         ⟨⟨str "normal", str "normal", str "#000000", some (str "none"), none, none,
           some true, some 1, some (str "ol")⟩,
          str "1. ", some true, some (str "list-prefix")⟩]
        (str "<ol><li>a")).map (fun s => s.hasSpaceAfter)).getLast? =
      some (some true)) ∧
    ((analyzeAndAssignSpacing
        [{ toTextStyle := getDefaultStyle, text := str "a", hasSpaceAfter := some true }]
        (str "a")).map (fun s => s.hasSpaceAfter)) = [some true] := by
  constructor
  · decide
  · decide

/-- C7 (amended).  Whenever the analyzer performs spacing assignment (at
least two segments survive normalization), the last returned segment has
`hasSpaceAfter = false` unless it is a list-prefix segment (which always
gets `true`); and the per-index assignment gives `hasSpaceAfter = false` to
any non-list-prefix segment whose successor lookup yields nothing. -/
theorem claim_C7_last_segment_amended :
    (∀ (segments : List TextSegment) (html : Str) (lseg : TextSegment),
       2 ≤ (normalizeSegmentWhitespace segments).length →
       (normalizeSegmentWhitespace segments).getLast? = some lseg →
       lseg.spacingContext ≠ some (str "list-prefix") →
       ((analyzeAndAssignSpacing segments html).map (fun s => s.hasSpaceAfter)).getLast? =
         some (some false)) ∧
    (∀ (ns : List TextSegment) (cleanedHtml : Str) (positions : List (Nat × Nat))
       (index : Nat) (segment : TextSegment),
       segment.spacingContext ≠ some (str "list-prefix") →
       ns[index + 1]? = none →
       (spacingAssign ns cleanedHtml positions index segment).hasSpaceAfter = some false) := by
  constructor
  · intro segments html lseg h2 hlast hctx
    unfold analyzeAndAssignSpacing
    rw [if_neg (by omega)]
    rw [List.getLast?_map]
    rw [mapIdxGo_getLast? _ _ 0 lseg hlast, Option.map_some']
    show some (spacingAssign _ _ _ _ lseg).hasSpaceAfter = some (some false)
    unfold spacingAssign
    rw [if_neg hctx, if_pos (by omega)]
  · intro ns cleanedHtml positions index segment hctx hnone
    unfold spacingAssign
    rw [if_neg hctx]
    by_cases hidx : index ≥ ns.length - 1
    · rw [if_pos hidx]
    · rw [if_neg hidx, hnone]

/-! ## Claim C2: stack balance for well-formed inputs -/

/-- C2.  For every well-formed input to the scan — every opening tag matched
by a corresponding closing tag, properly nested — the style stack has depth
exactly 1 when the scan loop finishes, containing only the default style. -/
theorem claim_C2_stack_balance (env : JsEnv) (t0 : Str) (cs : List Chunk)
    (h : WellFormedChunks cs) :
    (scanHTML env t0 cs).styleStack = [getDefaultStyle] := by
  have hinit : (handleText t0 initState).styleStack = [getDefaultStyle] := by
    rw [handleText_styleStack]; rfl
  have hne : (handleText t0 initState).styleStack ≠ [] := by
    rw [hinit]; simp
  have hlen : (scanHTML env t0 cs).styleStack.length = 1 := by
    unfold scanHTML
    apply scanChunks_balance env cs 1 _ [] h
    rw [hinit]
    rfl
  have hhead : (scanHTML env t0 cs).styleStack.head? = some getDefaultStyle := by
    unfold scanHTML
    rw [scanChunks_styleStack_head env cs 1 _ hne, hinit]
    rfl
  cases hs : (scanHTML env t0 cs).styleStack with
  | nil => rw [hs] at hlen; simp at hlen
  | cons a t =>
    rw [hs] at hlen hhead
    simp only [List.length_cons, List.head?_cons, Option.some.injEq] at hlen hhead
    have ht : t = [] := by
      have : t.length = 0 := by omega
      exact List.eq_nil_of_length_eq_zero this
    rw [ht, hhead]

/-- Witness for C2 at the well-formed input `<b>x</b>`. -/
theorem claim_C2_stack_balance_witness :
    WellFormedChunks
        [⟨[], str "b", [], str "x"⟩, ⟨str "/", str "b", [], []⟩] ∧
      (scanHTML defaultEnv []
          [⟨[], str "b", [], str "x"⟩, ⟨str "/", str "b", [], []⟩]).styleStack =
        [getDefaultStyle] := by
  refine ⟨by unfold WellFormedChunks; decide, ?_⟩
  exact claim_C2_stack_balance defaultEnv []
    [⟨[], str "b", [], str "x"⟩, ⟨str "/", str "b", [], []⟩]
    (by unfold WellFormedChunks; decide)

/-! ## Claim C10: the style stack never underflows -/

/-- C10.  Throughout a run of the scan the style stack always contains at
least one entry, and a closing tag whose strategy requests a pop while the
stack has depth 1 leaves both the stack and the current style unchanged:
scanning `</b>text` ends with the one-entry default stack, the default
current style, and the plain text carrying the default style. -/
theorem claim_C10_stack_never_underflows :
    (∀ (env : JsEnv) (cs : List Chunk) (i : Nat) (st : ScanState),
       st.styleStack ≠ [] → (scanChunks env cs i st).styleStack ≠ []) ∧
    (∀ env : JsEnv,
       scanHTML env [] [⟨str "/", str "b", [], str "text"⟩] =
         { segments := [{ toTextStyle := getDefaultStyle, text := str "text" }]
           errors := []
           currentStyle := getDefaultStyle
           styleStack := [getDefaultStyle]
           comp := emptyComposite }) := by
  constructor
  · intro env cs i st h
    exact scanChunks_styleStack_nonempty env cs i st h
  · intro env
    rfl

/-- Witness for C10: the invariant applied to the stray-closing-tag input
from its own statement. -/
theorem claim_C10_stack_never_underflows_witness :
    initState.styleStack ≠ [] ∧
      (scanChunks defaultEnv [⟨str "/", str "b", [], str "text"⟩] 1 initState).styleStack ≠ [] := by
  refine ⟨by decide, ?_⟩
  exact claim_C10_stack_never_underflows.1 defaultEnv
    [⟨str "/", str "b", [], str "text"⟩] 1 initState (by decide)

/-! ## Claim C1: binary hasSpaceAfter between adjacent segments -/

theorem c1_head?_mem (l : Str) (c : Char) (hc : l.head? = some c) : c ∈ l := by
  cases l with
  | nil => simp at hc
  | cons a t =>
    simp only [List.head?_cons, Option.some.injEq] at hc
    subst hc
    exact List.mem_cons_self a t

theorem c1_dropWhile_eq_self (l : Str) (h : ∀ c, l.head? = some c → isWs c = false) :
    l.dropWhile isWs = l := by
  cases l with
  | nil => rfl
  | cons a t => rw [List.dropWhile_cons, if_neg (by simp [h a rfl])]

theorem c1_ne_newline (l : Str) (h : ∀ c ∈ l, isWs c = false) : l ≠ str "\n" := by
  intro he
  have h2 := h '\n' (by rw [he]; decide)
  exact absurd h2 (by decide)

theorem c1_trimStr_eq_self (l : Str) (h : ∀ c ∈ l, isWs c = false) : trimStr l = l := by
  unfold trimStr
  rw [c1_dropWhile_eq_self l (fun c hc => h c (c1_head?_mem l c hc))]
  rw [c1_dropWhile_eq_self l.reverse
    (fun c hc => h c (List.mem_reverse.mp (c1_head?_mem l.reverse c hc)))]
  exact List.reverse_reverse l

theorem c1_trimStr_append (A M B : Str) (hA : ∀ c ∈ A, isWs c = false)
    (hB : ∀ c ∈ B, isWs c = false) (hAne : A ≠ []) (hBne : B ≠ []) :
    trimStr (A ++ M ++ B) = A ++ M ++ B := by
  unfold trimStr
  have h1 : (A ++ M ++ B).dropWhile isWs = A ++ M ++ B := by
    apply c1_dropWhile_eq_self
    intro c hc
    cases A with
    | nil => exact absurd rfl hAne
    | cons a t =>
      simp only [List.cons_append, List.head?_cons, Option.some.injEq] at hc
      rw [← hc]
      exact hA a (List.mem_cons_self a t)
  rw [h1]
  have h2 : (A ++ M ++ B).reverse.dropWhile isWs = (A ++ M ++ B).reverse := by
    apply c1_dropWhile_eq_self
    intro c hc
    rcases List.eq_nil_or_concat B with hB0 | ⟨B', b, hBc⟩
    · exact absurd hB0 hBne
    · rw [hBc] at hc
      simp only [List.concat_eq_append, List.reverse_append, List.reverse_cons,
        List.reverse_nil, List.nil_append, List.cons_append, List.head?_cons,
        Option.some.injEq] at hc
      rw [← hc]
      exact hB b (by rw [hBc]; simp)
  rw [h2]
  exact List.reverse_reverse _

theorem c1_collapseWs_append (a r : Str) (h : ∀ c ∈ a, isWs c = false) :
    collapseWs (a ++ r) = a ++ collapseWs r := by
  induction a with
  | nil => rfl
  | cons x t ih =>
    have hx : isWs x = false := h x (List.mem_cons_self x t)
    rw [List.cons_append]
    simp only [collapseWs, hx, Bool.false_eq_true, if_false]
    rw [ih (fun c hc => h c (List.mem_cons_of_mem x hc)), List.cons_append]

theorem c1_collapseWs_eq_self (a : Str) (h : ∀ c ∈ a, isWs c = false) :
    collapseWs a = a := by
  have h2 := c1_collapseWs_append a [] h
  simpa [show collapseWs [] = ([] : Str) from rfl] using h2

theorem c1_collapseWsSkip_ws_append (w b : Str) (hw : ∀ c ∈ w, isWs c = true) :
    collapseWsSkip (w ++ b) = collapseWsSkip b := by
  induction w with
  | nil => rfl
  | cons x t ih =>
    have hx : isWs x = true := hw x (List.mem_cons_self x t)
    rw [List.cons_append]
    simp only [collapseWsSkip, hx, if_true]
    exact ih (fun c hc => hw c (List.mem_cons_of_mem x hc))

theorem c1_collapseWsSkip_eq_collapseWs (b : Str)
    (h : ∀ c, b.head? = some c → isWs c = false) :
    collapseWsSkip b = collapseWs b := by
  cases b with
  | nil => rfl
  | cons x t =>
    have hx := h x rfl
    simp only [collapseWsSkip, collapseWs, hx, Bool.false_eq_true, if_false]

theorem c1_findFromAux_of_isPrefixOf (needle l : Str) (i : Nat)
    (h : needle.isPrefixOf l = true) : findFromAux needle l i = some i := by
  cases l with
  | nil =>
    have hn : needle = [] := by
      cases needle with
      | nil => rfl
      | cons a t => simp [List.isPrefixOf] at h
    simp [findFromAux, hn]
  | cons x t => simp [findFromAux, h]

theorem c1_findFromAux_space_cons (B : Str) (i : Nat)
    (h : ∀ c, B.head? = some c → isWs c = false) (hBne : B ≠ []) :
    findFromAux B (' ' :: B) i = some (i + 1) := by
  cases B with
  | nil => exact absurd rfl hBne
  | cons b B' =>
    have hb : isWs b = false := h b rfl
    have hbne : (b == ' ') = false := by
      cases hbs : b == ' ' with
      | false => rfl
      | true =>
        have : b = ' ' := by exact beq_iff_eq.mp hbs
        rw [this] at hb
        exact absurd hb (by decide)
    rw [show findFromAux (b :: B') (' ' :: b :: B') i =
        (if (b :: B').isPrefixOf (' ' :: b :: B') then some i
         else findFromAux (b :: B') (b :: B') (i + 1)) from rfl]
    rw [if_neg (by simp [List.isPrefixOf, hbne])]
    exact c1_findFromAux_of_isPrefixOf _ _ _ (by rw [List.isPrefixOf_iff_prefix])

theorem c1_cleanHtml (A W B : Str) (hA : ∀ c ∈ A, isWs c = false)
    (hW : ∀ c ∈ W, isWs c = true) (hB : ∀ c ∈ B, isWs c = false)
    (hAne : A ≠ []) (hBne : B ≠ []) :
    cleanHtmlWhitespace (A ++ W ++ B) =
      A ++ (if W = [] then [] else [' ']) ++ B := by
  unfold cleanHtmlWhitespace
  rw [List.append_assoc, c1_collapseWs_append A (W ++ B) hA]
  cases W with
  | nil =>
    rw [if_pos rfl]
    simp only [List.nil_append]
    rw [c1_collapseWs_eq_self B hB]
    have := c1_trimStr_append A [] B hA hB hAne hBne
    simpa using this
  | cons w0 W' =>
    rw [if_neg (by simp)]
    have hw0 : isWs w0 = true := hW w0 (List.mem_cons_self w0 W')
    rw [show collapseWs ((w0 :: W') ++ B) = ' ' :: collapseWsSkip (W' ++ B) from by
      rw [List.cons_append]; simp [collapseWs, hw0]]
    rw [c1_collapseWsSkip_ws_append W' B (fun c hc => hW c (List.mem_cons_of_mem w0 hc))]
    rw [c1_collapseWsSkip_eq_collapseWs B (fun c hc => hB c (c1_head?_mem B c hc))]
    rw [c1_collapseWs_eq_self B hB]
    have := c1_trimStr_append A [' '] B hA hB hAne hBne
    simpa [List.append_assoc] using this

theorem c1_mapPositionsAux_step (html : Str) (s : TextSegment) (rest : List TextSegment)
    (i j : Nat) (T : Str) (hT : s.text = T) (hTw : ∀ c ∈ T, isWs c = false) (hTne : T ≠ [])
    (hfind : jsIndexOf html T i = some j) :
    mapPositionsAux html (s :: rest) i =
      (j, j + T.length) :: mapPositionsAux html rest (j + T.length) := by
  simp only [mapPositionsAux, hT, c1_trimStr_eq_self T hTw]
  rw [if_neg (c1_ne_newline T hTw), if_neg hTne, hfind]

theorem c1_jsIndexOf_first (A R : Str) : jsIndexOf (A ++ R) A 0 = some 0 := by
  unfold jsIndexOf
  rw [List.drop_zero]
  exact c1_findFromAux_of_isPrefixOf A (A ++ R) 0
    (by rw [List.isPrefixOf_iff_prefix]; exact List.prefix_append A R)

theorem c1_jsIndexOf_exact (A B : Str) : jsIndexOf (A ++ B) B A.length = some A.length := by
  unfold jsIndexOf
  rw [List.drop_left]
  exact c1_findFromAux_of_isPrefixOf B B A.length (by rw [List.isPrefixOf_iff_prefix])

theorem c1_jsIndexOf_space (A B : Str) (hB : ∀ c ∈ B, isWs c = false) (hBne : B ≠ []) :
    jsIndexOf (A ++ (' ' :: B)) B A.length = some (A.length + 1) := by
  unfold jsIndexOf
  rw [show A ++ (' ' :: B) = A ++ [' '] ++ B by simp]
  rw [List.append_assoc, List.drop_left]
  rw [show ([' '] ++ B : Str) = ' ' :: B from rfl]
  exact c1_findFromAux_space_cons B A.length (fun c hc => hB c (c1_head?_mem B c hc)) hBne

/-- C1 (amended).  For adjacent non-newline, non-list-prefix segments whose
texts actually occur at their source positions — segment texts `A` then `B`,
both nonempty and whitespace-free, over html `A ++ W ++ B` with `W` a
(possibly empty) whitespace run — the analyzer sets the first segment's
`hasSpaceAfter` to `true` exactly when `W` is nonempty, a binary decision
independent of the length of `W` (and the second, last segment gets
`false`). -/
theorem claim_C1_spacing_binary_amended
    (A W B : Str) (sa sb : TextSegment)
    (hAne : A ≠ []) (hBne : B ≠ [])
    (hA : ∀ c ∈ A, isWs c = false) (hB : ∀ c ∈ B, isWs c = false)
    (hW : ∀ c ∈ W, isWs c = true)
    (hsa : sa.text = A) (hsb : sb.text = B)
    (hctxa : sa.spacingContext ≠ some (str "list-prefix"))
    (hctxb : sb.spacingContext ≠ some (str "list-prefix")) :
    (analyzeAndAssignSpacing [sa, sb] (A ++ W ++ B)).map (fun s => s.hasSpaceAfter) =
      [some (decide (W ≠ [])), some false] := by
  have hctxa' : ({ sa with text := A } : TextSegment).spacingContext ≠ some (str "list-prefix") := hctxa
  have hctxb' : ({ sb with text := B } : TextSegment).spacingContext ≠ some (str "list-prefix") := hctxb
  have hns : normalizeSegmentWhitespace [sa, sb] =
      [{ sa with text := A }, { sb with text := B }] := by
    unfold normalizeSegmentWhitespace
    simp only [List.foldr_cons, List.foldr_nil, hsa, hsb,
      c1_trimStr_eq_self A hA, c1_trimStr_eq_self B hB]
    rw [if_neg (c1_ne_newline A hA), if_neg hAne,
      if_neg (c1_ne_newline B hB), if_neg hBne]
  simp only [analyzeAndAssignSpacing, mapSegmentsToHtmlPositions]
  rw [hns]
  rw [if_neg (by simp)]
  rw [c1_cleanHtml A W B hA hW hB hAne hBne]
  by_cases hWe : W = []
  · subst hWe
    rw [if_pos rfl]
    simp only [List.append_nil, List.nil_append]
    rw [c1_mapPositionsAux_step (A ++ B) _ _ 0 0 A rfl hA hAne (c1_jsIndexOf_first A B)]
    simp only [Nat.zero_add]
    rw [c1_mapPositionsAux_step (A ++ B) _ _ A.length A.length B rfl hB hBne
      (c1_jsIndexOf_exact A B)]
    rw [show mapPositionsAux (A ++ B) [] (A.length + B.length) = [] from rfl]
    simp only [mapIdxGo, List.map_cons, List.map_nil]
    have hd : (decide (([] : Str) ≠ [])) = false := by decide
    rw [hd]
    congr 1
    · -- first segment: spacingAssign at index 0
      simp only [spacingAssign]
      rw [if_neg hctxa', if_neg (by simp)]
      simp only [List.getElem?_cons_succ, List.getElem?_cons_zero]
      show some (shouldHaveSpaceBetween _ _ 0 (A ++ B) _) = some false
      simp only [shouldHaveSpaceBetween]
      have hcond : (decide (({ sa with text := A } : TextSegment).text = str "\n") ||
          decide (({ sb with text := B } : TextSegment).text = str "\n")) = false := by
        simp only [show ({ sa with text := A } : TextSegment).text = A from rfl,
          show ({ sb with text := B } : TextSegment).text = B from rfl]
        simp [c1_ne_newline A hA, c1_ne_newline B hB]
      rw [hcond]
      simp only [Bool.false_eq_true, if_false]
      simp only [List.getElem?_cons_succ, List.getElem?_cons_zero]
      have hsub : jsSubstring (A ++ B) A.length A.length = [] := by
        unfold jsSubstring
        rw [List.take_left, List.drop_length]
      rw [hsub]
      rfl
    · -- second segment: spacingAssign at index 1 is the last index
      congr 1
      simp only [spacingAssign]
      rw [if_neg hctxb', if_pos (by simp)]
  · rw [if_neg hWe]
    have hdW : (decide (W ≠ [])) = true := by simp [hWe]
    rw [hdW]
    rw [show A ++ [' '] ++ B = A ++ (' ' :: B) by simp]
    rw [c1_mapPositionsAux_step (A ++ (' ' :: B)) _ _ 0 0 A rfl hA hAne
      (c1_jsIndexOf_first A (' ' :: B))]
    simp only [Nat.zero_add]
    rw [c1_mapPositionsAux_step (A ++ (' ' :: B)) _ _ A.length (A.length + 1) B rfl hB hBne
      (c1_jsIndexOf_space A B hB hBne)]
    rw [show mapPositionsAux (A ++ (' ' :: B)) [] (A.length + 1 + B.length) = [] from rfl]
    simp only [mapIdxGo, List.map_cons, List.map_nil]
    congr 1
    · simp only [spacingAssign]
      rw [if_neg hctxa', if_neg (by simp)]
      simp only [List.getElem?_cons_succ, List.getElem?_cons_zero]
      show some (shouldHaveSpaceBetween _ _ 0 (A ++ (' ' :: B)) _) = some true
      simp only [shouldHaveSpaceBetween]
      have hcond : (decide (({ sa with text := A } : TextSegment).text = str "\n") ||
          decide (({ sb with text := B } : TextSegment).text = str "\n")) = false := by
        simp only [show ({ sa with text := A } : TextSegment).text = A from rfl,
          show ({ sb with text := B } : TextSegment).text = B from rfl]
        simp [c1_ne_newline A hA, c1_ne_newline B hB]
      rw [hcond]
      simp only [Bool.false_eq_true, if_false]
      simp only [List.getElem?_cons_succ, List.getElem?_cons_zero]
      have hsub : jsSubstring (A ++ (' ' :: B)) A.length (A.length + 1) = [' '] := by
        unfold jsSubstring
        rw [show A ++ (' ' :: B) = A ++ [' '] ++ B by simp]
        rw [List.append_assoc, List.take_append 1]
        rw [show ([' '] ++ B : Str).take 1 = [' '] from rfl]
        rw [List.drop_left]
      rw [hsub]
      rfl
    · congr 1
      simp only [spacingAssign]
      rw [if_neg hctxb', if_pos (by simp)]

/-- Witness for C1 (amended) at `A = "x"`, `W = " "`, `B = "y"`. -/
theorem claim_C1_spacing_binary_amended_witness :
    (str "x" ≠ ([] : Str)) ∧ (str "y" ≠ ([] : Str)) ∧
    (∀ c ∈ str "x", isWs c = false) ∧ (∀ c ∈ str "y", isWs c = false) ∧
    (∀ c ∈ str " ", isWs c = true) ∧
    ((analyzeAndAssignSpacing
        [⟨getDefaultStyle, str "x", none, none⟩, ⟨getDefaultStyle, str "y", none, none⟩]
        (str "x" ++ str " " ++ str "y")).map (fun s => s.hasSpaceAfter) =
      [some (decide ((str " ") ≠ ([] : Str))), some false]) := by
  refine ⟨by decide, by decide, by decide, by decide, by decide, ?_⟩
  exact claim_C1_spacing_binary_amended (str "x") (str " ") (str "y")
    ⟨getDefaultStyle, str "x", none, none⟩ ⟨getDefaultStyle, str "y", none, none⟩
    (by decide) (by decide) (by decide) (by decide) (by decide) rfl rfl
    (by decide) (by decide)

/-- Counterexample to C1 as stated: scanning `x<b> b</b>c` yields segments
`x`, `b`, `c`; in the original html there IS whitespace between the trimmed
texts `x` and `b` (the slice `<b> ` between positions 1 and 5), yet the
analyzer assigns `x` `hasSpaceAfter = false`; and there is NO whitespace
between `b` and `c` (the slice `</b>` between positions 6 and 10), yet `b`
gets `hasSpaceAfter = true` — the position mapping finds the text `b` at the
tag name inside `<b>` (index 2) instead of at its true occurrence (index 5),
inverting both decisions. -/
theorem claim_C1_spacing_binary_cex :
    ((analyzeAndAssignSpacing
        (scanHTML defaultEnv (str "x")
          [⟨[], str "b", [], str " b"⟩, ⟨str "/", str "b", [], str "c"⟩]).segments
        (str "x<b> b</b>c")).map (fun s => (s.text, s.hasSpaceAfter)) =
      [(str "x", some false), (str "b", some true), (str "c", some false)]) ∧
    (jsSubstring (str "x<b> b</b>c") 1 5).any isWs = true ∧
    (jsSubstring (str "x<b> b</b>c") 6 10).any isWs = false := by
  refine ⟨?_, by decide, by decide⟩
  decide

/-- Witness for C7 (amended): two plain segments over `a b`; the last gets
`hasSpaceAfter = false`, and the per-index assignment with a failing
successor lookup gives `false`. -/
theorem claim_C7_last_segment_amended_witness :
    (2 ≤ (normalizeSegmentWhitespace
        [⟨getDefaultStyle, str "a", none, none⟩, ⟨getDefaultStyle, str "b", none, none⟩]).length ∧
     (normalizeSegmentWhitespace
        [⟨getDefaultStyle, str "a", none, none⟩, ⟨getDefaultStyle, str "b", none, none⟩]).getLast? =
       some ⟨getDefaultStyle, str "b", none, none⟩ ∧
     (⟨getDefaultStyle, str "b", none, none⟩ : TextSegment).spacingContext ≠ some (str "list-prefix") ∧
     ((analyzeAndAssignSpacing
        [⟨getDefaultStyle, str "a", none, none⟩, ⟨getDefaultStyle, str "b", none, none⟩]
        (str "a b")).map (fun s => s.hasSpaceAfter)).getLast? = some (some false)) ∧
    ((⟨getDefaultStyle, str "a", none, none⟩ : TextSegment).spacingContext ≠ some (str "list-prefix") ∧
     ([⟨getDefaultStyle, str "a", none, none⟩] : List TextSegment)[0 + 1]? = none ∧
     (spacingAssign [⟨getDefaultStyle, str "a", none, none⟩] (str "a") [] 0
        ⟨getDefaultStyle, str "a", none, none⟩).hasSpaceAfter = some false) := by
  refine ⟨⟨by decide, by decide, by decide, ?_⟩, by decide, by decide, ?_⟩
  · exact claim_C7_last_segment_amended.1
      [⟨getDefaultStyle, str "a", none, none⟩, ⟨getDefaultStyle, str "b", none, none⟩]
      (str "a b") ⟨getDefaultStyle, str "b", none, none⟩
      (by decide) (by decide) (by decide)
  · exact claim_C7_last_segment_amended.2
      [⟨getDefaultStyle, str "a", none, none⟩] (str "a") [] 0
      ⟨getDefaultStyle, str "a", none, none⟩ (by decide) (by decide)

end HtmlVega
